import Mathlib

/-!
Verification development for the conversational decision engine of the
`yara` chatbot repository.

The Python sources are shallowly embedded as executable Lean definitions:

* `nlp.py`          → intent pattern tables, `recognize_intent`, the
                      orchestration chain `generate_response`, the response
                      validator `is_valid_response`, the fallback tables,
                      the database formatting helpers and `add_to_history`;
* `memory.py`       → `SessionMemory` (store / retrieve / remove / clear),
                      the `MemoryManager` rule tables and `process_input`.

Modelling conventions:

* Python floats are modelled as rationals (`ℚ`); the weights `0.3` and
  `0.7` become `3/10` and `7/10`.
* Python strings are Lean `String`s; `str.lower` is the ASCII
  character-wise lowering (the inputs of interest are ASCII).
* Python regular expressions are embedded as token sequences (literals,
  `\w+`, `[^.!?]+`, an optional trailing `?`, `^`/`$` anchors).  In every
  pattern of the sources a greedy character class is followed either by
  the end of the pattern or by a literal that starts with a character the
  class cannot match, so greedy matching without backtracking coincides
  with Python ones; `re.findall` counts non-overlapping left-to-right
  matches; a `$` anchor also accepts a single trailing newline, as in
  Python.
* External capabilities (embedding model, generation pipeline, database
  manager) are parameters; a call that may raise is modelled with
  `Except`.  Numeric rendering of the database formatters (Python
  `{:,.2f}` etc.) is abstracted to `toString`.
* Wall-clock timestamps (`datetime.now()`) are modelled by a `now : Nat`
  parameter threaded into the memory operations.
-/

/-! ## Basic character and list helpers -/

/-- ASCII word character, Python `\w` on lowered ASCII input. -/
def isWordChar (c : Char) : Bool :=
  c.isAlphanum || c == '_'

/-- Whitespace characters removed by Python `str.strip()`. -/
def isPySpace (c : Char) : Bool :=
  c == ' ' || c == '\t' || c == '\n' || c == '\r' || c == '\x0b' || c == '\x0c'

/-- Python `str.lower()` on a character list (ASCII case folding). -/
def lowerL (s : String) : List Char :=
  s.toList.map Char.toLower

/-- Python `str.lower()` returning a `String`. -/
def lowerS (s : String) : String :=
  (lowerL s).asString

/-- Leading-segment test: `chPre m s` holds when `s` begins with `m`. -/
def chPre : List Char → List Char → Bool
  | [], _ => true
  | _ :: _, [] => false
  | a :: as, b :: bs => a == b && chPre as bs

/-- Python substring test `m in s` on character lists. -/
def chSub (m : List Char) : List Char → Bool
  | [] => chPre m []
  | c :: r => chPre m (c :: r) || chSub m r

/-- Python substring test `needle in hay` on strings. -/
def strContainsS (hay needle : String) : Bool :=
  chSub needle.toList hay.toList

/-- Python `str.strip()` on a character list. -/
def pyStrip (s : List Char) : List Char :=
  ((s.dropWhile isPySpace).reverse.dropWhile isPySpace).reverse

/-- Python `str.strip()` on strings. -/
def pyStripS (s : String) : String :=
  (pyStrip s.toList).asString

/-- Number of whitespace-separated words, Python `len(s.split())`. -/
def pyWordCount (s : String) : Nat :=
  (s.toList.foldl
    (fun st c =>
      if isPySpace c then (st.1, false)
      else if st.2 then st else (st.1 + 1, true))
    ((0 : Nat), false)).1

/-- Scanner for `afterLast`: `acc` is the best suffix found so far. -/
def afterLastGo (m : List Char) : List Char → List Char → List Char
  | acc, [] => acc
  | acc, c :: rest =>
    if m.isPrefixOf (c :: rest) then
      afterLastGo m ((c :: rest).drop m.length) rest
    else
      afterLastGo m acc rest

/-- Python `s.split(marker)[-1]`: the text after the last occurrence of
`marker`, or all of `s` if the marker does not occur (the markers used,
`"Yara:"` and `"Assistant:"`, cannot overlap themselves). -/
def afterLastS (marker s : String) : String :=
  (afterLastGo marker.toList s.toList s.toList).asString

/-- Last `n` elements of a list, in order. -/
def rtake (n : Nat) (l : List α) : List α :=
  (l.reverse.take n).reverse

/-! ## Association lists (Python `dict` with insertion order) -/

/-- Lookup in an insertion-ordered association list. -/
def alook [DecidableEq κ] : List (κ × α) → κ → Option α
  | [], _ => none
  | (j, v) :: t, k => if j = k then some v else alook t k

/-- Python `d[k] = v`: update in place if present, append otherwise. -/
def aset [DecidableEq κ] (k : κ) (v : α) : List (κ × α) → List (κ × α)
  | [] => [(k, v)]
  | (j, w) :: t => if j = k then (k, v) :: t else (j, w) :: aset k v t

/-- Python `del d[k]` (first occurrence; dict keys are unique). -/
def aerase [DecidableEq κ] (k : κ) : List (κ × α) → List (κ × α)
  | [] => []
  | (j, w) :: t => if j = k then t else (j, w) :: aerase k t

/-- Key list of an association list, in insertion order. -/
def akeys (l : List (κ × α)) : List κ :=
  l.map (·.1)

/-! ## The fixed intent set (`IntentRecognizer.intent_patterns` keys) -/

/-- Closed set of intent labels of `nlp.py`. -/
inductive Intent where
  | revenue_query
  | customer_query
  | product_query
  | greeting
  | personal_question
  | gratitude
  | farewell
  | memory_query
  | memory_store
  | memory_manage
  | general_chat
deriving DecidableEq, Repr

/-- All eleven intents, in the order of the `intent_patterns` table. -/
def allIntents : List Intent :=
  [.revenue_query, .customer_query, .product_query, .greeting,
   .personal_question, .gratitude, .farewell, .memory_query,
   .memory_store, .memory_manage, .general_chat]

/-- Database-backed intents checked by the orchestrator. -/
def dbIntents : List Intent :=
  [.revenue_query, .customer_query, .product_query]

/-! ## Embedded regular expressions for the intent scorer -/

/-- One token of an embedded regular expression branch:
a literal, `\w+`, or `[^…]+` with the excluded characters. -/
inductive Tok where
  | lit (s : String)
  | wplus
  | cplus (excl : List Char)
deriving DecidableEq, Repr

/-- One alternation branch is a token sequence; a pattern is an ordered
list of branches (Python `a|b|c`). -/
abbrev Pat := List (List Tok)

/-- Greedy token-sequence matcher; returns the rest of the input after a
match at the current position.  Greediness without backtracking agrees
with Python on every pattern of the sources (see the header comment). -/
def matchToks : List Tok → List Char → Option (List Char)
  | [], cs => some cs
  | .lit l :: ts, cs =>
    if l.toList.isPrefixOf cs then matchToks ts (cs.drop l.length) else none
  | .wplus :: ts, cs =>
    let tk := cs.takeWhile isWordChar
    if tk = [] then none else matchToks ts (cs.drop tk.length)
  | .cplus excl :: ts, cs =>
    let tk := cs.takeWhile (fun c => !excl.contains c)
    if tk = [] then none else matchToks ts (cs.drop tk.length)

/-- First hit of a partial function over a list (first-match-wins loops). -/
def firstHit (f : α → Option β) : List α → Option β
  | [] => none
  | a :: as =>
    match f a with
    | some b => some b
    | none => firstHit f as

/-- Try the branches of a pattern in order at the current position. -/
def matchAt (p : Pat) (cs : List Char) : Option (List Char) :=
  firstHit (fun b => matchToks b cs) p

/-- Fuelled scanner counting the non-overlapping left-to-right matches of
a pattern, Python `len(re.findall(p, s))`; an empty match advances one
position, as in Python. -/
def scanCountF (p : Pat) : Nat → List Char → Nat
  | 0, _ => 0
  | _ + 1, [] => 0
  | fuel + 1, c :: rest =>
    match matchAt p (c :: rest) with
    | some rem =>
      1 + (if rem.length ≤ rest.length then scanCountF p fuel rem
           else scanCountF p fuel rest)
    | none => scanCountF p fuel rest

/-- Python `len(re.findall(p, s))`. -/
def scanCount (p : Pat) (cs : List Char) : Nat :=
  scanCountF p cs.length cs

/-! ## Intent pattern table (`IntentRecognizer.intent_patterns`) -/

/-- Shorthand for a pattern that is an alternation of plain literals. -/
def litAlt (ws : List String) : Pat :=
  ws.map (fun w => [Tok.lit w])

/-- The `intent_patterns` table of `nlp.py`, in source order.  Each entry
pairs an intent with its ordered list of regular-expression rules. -/
def intent_patterns : List (Intent × List Pat) :=
  [ (.revenue_query,
     [ litAlt [ "revenue", "earnings", "income", "sales", "money",
                "profit", "financial", "quarter", "year", "month" ],
       litAlt [ "how much", "what was", "total", "amount", "earned", "made" ] ]),
    (.customer_query,
     [ litAlt [ "customer", "client", "user", "buyer", "purchaser" ],
       litAlt [ "how many", "count", "list", "show", "find" ] ]),
    (.product_query,
     [ litAlt [ "product", "item", "goods", "service", "offering" ],
       litAlt [ "price", "cost", "inventory", "stock", "available" ] ]),
    (.greeting,
     [ litAlt [ "hello", "hi", "hey", "greeting", "how are you",
                "good morning", "good afternoon", "good evening" ],
       litAlt [ "what\x27s up", "sup", "yo", "greetings" ] ]),
    (.personal_question,
     [ litAlt [ "who are you", "what\x27s your name",
                "tell me about yourself", "what can you do" ],
       litAlt [ "your personality", "your traits", "about you" ] ]),
    (.gratitude,
     [ litAlt [ "thank you", "thanks", "thx", "appreciate it", "grateful",
                "awesome", "great", "good job" ],
       litAlt [ "well done", "excellent", "fantastic", "amazing" ] ]),
    (.farewell,
     [ litAlt [ "goodbye", "bye", "see you", "see ya", "take care",
                "farewell", "until next time" ],
       litAlt [ "have a good day", "have a nice day", "good night" ] ]),
    (.memory_query,
     [ [[Tok.lit "what is my ", Tok.wplus]],
       [[Tok.lit "what\x27s my ", Tok.wplus]],
       [[Tok.lit "do you know my ", Tok.wplus]],
       [[Tok.lit "remember my ", Tok.wplus]],
       [[Tok.lit "where do i live"]],
       [[Tok.lit "where am i from"]],
       [[Tok.lit "what\x27s my location"]] ]),
    (.memory_store,
     [ [[Tok.lit "my name is ", Tok.wplus]],
       [[Tok.lit "i\x27m ", Tok.wplus]],
       [[Tok.lit "i am ", Tok.wplus]],
       [[Tok.lit "call me ", Tok.wplus]],
       [[Tok.wplus, Tok.lit " is my name"]],
       [[Tok.lit "my favorite color is ", Tok.wplus]],
       [[Tok.lit "i like ", Tok.wplus]],
       [[Tok.lit "i love ", Tok.wplus]],
       [[Tok.wplus, Tok.lit " is my favorite color"]],
       [[Tok.lit "i live in ", Tok.cplus [ '.', '!', '?' ]]],
       [[Tok.lit "i\x27m from ", Tok.cplus [ '.', '!', '?' ]]],
       [[Tok.lit "my location is ", Tok.cplus [ '.', '!', '?' ]]],
       [[Tok.lit "i\x27m in ", Tok.cplus [ '.', '!', '?' ]]] ]),
    (.memory_manage,
     [ [[Tok.lit "forget my ", Tok.wplus]],
       [[Tok.lit "forget what i told you"]],
       [[Tok.lit "remove my ", Tok.wplus]],
       [[Tok.lit "delete my ", Tok.wplus]],
       [[Tok.lit "clear my ", Tok.wplus]],
       [[Tok.lit "what do you remember"]],
       [[Tok.lit "what do you know about me"]],
       [[Tok.lit "show me what you remember"]],
       [[Tok.lit "my information"]] ]),
    (.general_chat,
     [ litAlt [ "weather", "joke", "story", "fun", "entertainment",
                "how\x27s it going", "what\x27s new" ],
       litAlt [ "chat", "conversation", "talk", "discuss" ] ]) ]

/-! ## Pattern-based scoring (`recognize_intent`, first loop) -/

/-- Per-intent pattern score: the source accumulates
`score += matches * 0.3` over the rules of one intent. -/
def patIntentScore (low : List Char) (pats : List Pat) : ℚ :=
  pats.foldl (fun score p => score + (scanCount p low : ℚ) * (3 / 10)) 0

/-- The `pattern_scores` dict: intents are inserted in table order, and
an intent is inserted only when its score is positive. -/
def buildScores (low : List Char) : List (Intent × List Pat) → List (Intent × ℚ)
  | [] => []
  | (i, ps) :: rest =>
    (if 0 < patIntentScore low ps then [(i, patIntentScore low ps)] else [])
      ++ buildScores low rest

/-! ## Semantic merge and the classifier decision rule -/

/-- Intents in the order of the `intent_examples` table (identical to the
`intent_patterns` order). -/
def intentsOrder : List Intent := allIntents

/-- One step of the semantic loop: `pattern_scores[intent] += s` when the
key is present, `pattern_scores[intent] = s` otherwise. -/
def mergeStep (f : Intent → ℚ) (d : List (Intent × ℚ)) (i : Intent) :
    List (Intent × ℚ) :=
  match alook d i with
  | some v => aset i (v + f i) d
  | none => aset i (f i) d

/-- Merged score dict after the semantic-similarity loop.  The semantic
capability is a parameter: `none` models an absent or failing sentence
model (the `try` block contributes nothing), `some f` gives, per intent,
`np.max(similarities) * 0.7`. -/
def mergedScores (sem : Option (Intent → ℚ)) (text : String) :
    List (Intent × ℚ) :=
  let base := buildScores (lowerL text) intent_patterns
  match sem with
  | none => base
  | some f => intentsOrder.foldl (mergeStep f) base

/-- Python `max(items, key=lambda x: x[1])`: the first item with maximal
value. -/
def bestOf (x : Intent × ℚ) (xs : List (Intent × ℚ)) : Intent × ℚ :=
  xs.foldl (fun b y => if b.2 < y.2 then y else b) x

/-- Application configuration (`AppConfig` of `config.py`), values only. -/
structure AppCfg where
  INTENT_THRESHOLD : ℚ
  MAX_HISTORY_LENGTH : Nat
  MIN_RESPONSE_LENGTH : Nat
  MAX_RESPONSE_LENGTH : Nat
  ENABLE_RESPONSE_VALIDATION : Bool
deriving DecidableEq, Repr

/-- Defaults of `config.py` (`0.7`, `10`, `10`, `500`, `True`). -/
def defaultCfg : AppCfg :=
  ⟨7 / 10, 10, 10, 500, true⟩

/-- `IntentRecognizer.recognize_intent`: pattern scores, semantic merge,
then the decision rule — best merged item, confidence capped at `1.0`,
returned only when it reaches the threshold, otherwise
`('general_chat', 0.5)`. -/
def recognize_intent (cfg : AppCfg) (sem : Option (Intent → ℚ))
    (text : String) : Intent × ℚ :=
  match mergedScores sem text with
  | [] => (.general_chat, 1 / 2)
  | x :: xs =>
    let best := bestOf x xs
    let confidence := min best.2 1
    if cfg.INTENT_THRESHOLD ≤ confidence then (best.1, confidence)
    else (.general_chat, 1 / 2)

/-! ## Embedded memory-rule patterns (`MemoryManager.memory_patterns`) -/

/-- Kind of the single capturing group of a memory pattern:
`gw` is `(\w+)`, `gc excl` is `([^…]+)`. -/
inductive GKind where
  | gw
  | gc (excl : List Char)
deriving DecidableEq, Repr

/-- Character predicate of a group kind. -/
def gfn : GKind → Char → Bool
  | .gw => isWordChar
  | .gc excl => fun c => !excl.contains c

/-- Shape of every pattern in `memory_patterns`: an optional `^…$`
anchoring, a literal, at most one greedy capturing group, a literal after
the group, and an optional trailing `\??`. -/
structure MPat where
  anchored : Bool
  pre : String
  grp : Option GKind
  post : String
  optq : Bool
deriving DecidableEq, Repr

/-- Greedily consume the optional trailing `\??`. -/
def eatOptQ (b : Bool) (s : List Char) : List Char :=
  if b then
    match s with
    | '?' :: r => r
    | _ => s
  else s

/-- Match a memory pattern at the current position; returns the captured
group (if the pattern has one) and the rest of the input. -/
def matchHere (p : MPat) (cs : List Char) : Option (Option (List Char) × List Char) :=
  if p.pre.toList.isPrefixOf cs then
    let s1 := cs.drop p.pre.length
    match p.grp with
    | none =>
      if p.post.toList.isPrefixOf s1 then
        some (none, eatOptQ p.optq (s1.drop p.post.length))
      else none
    | some k =>
      let tk := s1.takeWhile (gfn k)
      if tk = [] then none
      else
        let s2 := s1.drop tk.length
        if p.post.toList.isPrefixOf s2 then
          some (some tk, eatOptQ p.optq (s2.drop p.post.length))
        else none
  else none

/-- Anchored `re.search(r'^…$', s)`: a match at position 0 consuming the
whole input; as in Python, `$` also accepts one trailing newline. -/
def fullMatch (p : MPat) (cs : List Char) : Option (Option (List Char)) :=
  match matchHere p cs with
  | some (g, rem) => if rem = [] ∨ rem = [ '\n' ] then some g else none
  | none => none

/-- Unanchored `re.search`: leftmost position with a match. -/
def searchPat (p : MPat) : List Char → Option (Option (List Char))
  | [] => (matchHere p []).map (·.1)
  | c :: rest =>
    match matchHere p (c :: rest) with
    | some (g, _) => some g
    | none => searchPat p rest

/-- Dispatch on the `^…$` anchoring of a pattern. -/
def patMatch (p : MPat) (cs : List Char) : Option (Option (List Char)) :=
  if p.anchored then fullMatch p cs else searchPat p cs

/-- The `forget_request` pattern group, in source order. -/
def forget_request_patterns : List MPat :=
  [ ⟨false, "forget my ", some .gw, "", false⟩,
    ⟨false, "forget what i told you", none, "", false⟩,
    ⟨false, "remove my ", some .gw, "", false⟩,
    ⟨false, "delete my ", some .gw, "", false⟩,
    ⟨false, "clear my ", some .gw, "", false⟩ ]

/-- The `memory_summary` pattern group, in source order. -/
def memory_summary_patterns : List MPat :=
  [ ⟨false, "what do you remember", none, "", true⟩,
    ⟨false, "what do you know about me", none, "", true⟩,
    ⟨false, "show me what you remember", none, "", true⟩,
    ⟨false, "my information", none, "", true⟩ ]

/-- Excluded characters of the `[^.!?]+` class. -/
def locExcl : List Char := [ '.', '!', '?' ]

/-- The `store_*` pattern groups (`store_name`, `store_favorite_color`,
`store_location`), in dict insertion order. -/
def store_groups : List (String × List MPat) :=
  [ ("name",
     [ ⟨true, "my name is ", some .gw, "", false⟩,
       ⟨true, "i\x27m ", some .gw, "", false⟩,
       ⟨true, "i am ", some .gw, "", false⟩,
       ⟨true, "call me ", some .gw, "", false⟩,
       ⟨true, "", some .gw, " is my name", false⟩ ]),
    ("favorite_color",
     [ ⟨true, "my favorite color is ", some .gw, "", false⟩,
       ⟨true, "my fav color is ", some .gw, "", false⟩,
       ⟨true, "my fav clr is ", some .gw, "", false⟩,
       ⟨true, "i like ", some .gw, "", false⟩,
       ⟨true, "i love ", some .gw, "", false⟩,
       ⟨true, "", some .gw, " is my favorite color", false⟩ ]),
    ("location",
     [ ⟨true, "i live in ", some (.gc locExcl), "", false⟩,
       ⟨true, "i\x27m from ", some (.gc locExcl), "", false⟩,
       ⟨true, "my location is ", some (.gc locExcl), "", false⟩,
       ⟨true, "i\x27m in ", some (.gc locExcl), "", false⟩ ]) ]

/-- The `query_*` pattern groups, in dict insertion order. -/
def query_groups : List (String × List MPat) :=
  [ ("name",
     [ ⟨true, "what is my name", none, "", true⟩,
       ⟨true, "what\x27s my name", none, "", true⟩,
       ⟨true, "do you know my name", none, "", true⟩,
       ⟨true, "remember my name", none, "", true⟩,
       ⟨true, "my name", none, "", true⟩ ]),
    ("favorite_color",
     [ ⟨true, "what is my favorite color", none, "", true⟩,
       ⟨true, "what is my fav color", none, "", true⟩,
       ⟨true, "what is my fav clr", none, "", true⟩,
       ⟨true, "what\x27s my favorite color", none, "", true⟩,
       ⟨true, "do you know my favorite color", none, "", true⟩,
       ⟨true, "my favorite color", none, "", true⟩ ]),
    ("location",
     [ ⟨true, "where do i live", none, "", true⟩,
       ⟨true, "where am i from", none, "", true⟩,
       ⟨true, "what\x27s my location", none, "", true⟩,
       ⟨true, "my location", none, "", true⟩ ]) ]

/-! ## `SessionMemory` -/

/-- Metadata record stored alongside each memory value
(`timestamp`/`source`/`session_age` of `SessionMemory.store`). -/
structure MemMeta where
  timestamp : Nat
  source : String
  session_age : Nat
deriving DecidableEq, Repr

/-- The `SessionMemory` object: two insertion-ordered dicts and the
session start time. -/
structure SessionMemory where
  memory : List (String × String)
  memory_metadata : List (String × MemMeta)
  session_start : Nat
deriving DecidableEq, Repr

/-- Fresh `SessionMemory` created at time `now0`. -/
def SessionMemory.init (now0 : Nat) : SessionMemory :=
  ⟨[], [], now0⟩

/-- `SessionMemory.store`: writes the value and its metadata. -/
def SessionMemory.store (m : SessionMemory) (now : Nat) (key value source : String) :
    SessionMemory :=
  { m with
    memory := aset key value m.memory,
    memory_metadata := aset key ⟨now, source, now - m.session_start⟩ m.memory_metadata }

/-- `SessionMemory.retrieve`. -/
def SessionMemory.retrieve (m : SessionMemory) (key : String) : Option String :=
  alook m.memory key

/-- `SessionMemory.remove`: deletes the key from both dicts and returns
`True` when present, returns `False` otherwise.  The second `del` raises
a `KeyError` when the key is missing from the metadata dict, which is
modelled by the `.error` case. -/
def SessionMemory.remove (m : SessionMemory) (key : String) :
    Except String (SessionMemory × Bool) :=
  if (alook m.memory key).isSome then
    if (alook m.memory_metadata key).isSome then
      .ok ({ m with
              memory := aerase key m.memory,
              memory_metadata := aerase key m.memory_metadata }, true)
    else .error "KeyError"
  else .ok (m, false)

/-- `SessionMemory.clear`: empties both dicts and resets the session
start to the current time. -/
def SessionMemory.clear (m : SessionMemory) (now : Nat) : SessionMemory :=
  ⟨[], [], now⟩

/-- `SessionMemory.get_memory_summary`. -/
def SessionMemory.get_memory_summary (m : SessionMemory) : String :=
  if m.memory.isEmpty then "I don\x27t have any information stored yet."
  else
    "Here\x27s what I remember:\n" ++
      String.intercalate "\n"
        (m.memory.map (fun kv => "• " ++ kv.1 ++ ": " ++ kv.2))

/-! ## `MemoryManager.process_input` -/

/-- First matching `forget_request` pattern, with its `group(1)`. -/
def firstForgetMatch (low : List Char) : Option (Option (List Char)) :=
  firstHit (fun p => patMatch p low) forget_request_patterns

/-- Whether some `memory_summary` pattern matches. -/
def anySummaryMatch (low : List Char) : Bool :=
  (firstHit (fun p => patMatch p low) memory_summary_patterns).isSome

/-- First matching `store_*` pattern over the groups in dict order;
every store pattern has a capturing group, so the match always carries
one (the `getD` default is never used). -/
def firstStoreMatch (low : List Char) : Option (String × List Char) :=
  firstHit
    (fun kp =>
      (firstHit (fun p => patMatch p low) kp.2).map
        (fun g => (kp.1, g.getD [])))
    store_groups

/-- First matching `query_*` pattern over the groups in dict order. -/
def firstQueryMatch (low : List Char) : Option String :=
  firstHit
    (fun kp =>
      if (firstHit (fun p => patMatch p low) kp.2).isSome then some kp.1
      else none)
    query_groups

/-- Key resolution of the forget branch: the first stored key such that
the extracted token is contained in the key or vice versa. -/
def findActualKey (memory : List (String × String)) (extracted : String) :
    Option String :=
  firstHit
    (fun kv =>
      if strContainsS kv.1 extracted || strContainsS extracted kv.1 then
        some kv.1
      else none)
    memory

/-- Acknowledgement returned by the store branch. -/
def storeAck (key value : String) : String :=
  if key = "name" then
    "Nice to meet you, " ++ value ++ "! I\x27ll remember that during this chat. 😊"
  else if key = "favorite_color" then
    "Got it! I\x27ll remember that your favorite color is " ++ value ++ ". 🎨"
  else if key = "location" then
    "Thanks! I\x27ll remember you\x27re from " ++ value ++ ". 🌍"
  else
    "I\x27ll remember that your " ++ key ++ " is " ++ value ++ ". 👍"

/-- Statement returned by the query branch when the key is stored. -/
def queryKnown (key value : String) : String :=
  if key = "name" then "Your name is " ++ value ++ ". 😊"
  else if key = "favorite_color" then "Your favorite color is " ++ value ++ ". 🎨"
  else if key = "location" then "You\x27re from " ++ value ++ ". 🌍"
  else "Your " ++ key ++ " is " ++ value ++ ". 👍"

/-- Prompt returned by the query branch when the key is absent. -/
def queryUnknown (key : String) : String :=
  if key = "name" then "I don\x27t know yet! What\x27s your name? 😊"
  else if key = "favorite_color" then "I don\x27t know yet! What\x27s your favorite color? 🎨"
  else if key = "location" then "I don\x27t know yet! Where are you from? 🌍"
  else "I don\x27t know your " ++ key ++ " yet. Could you tell me? 🤔"

/-- Confirmation returned when the whole session memory is cleared. -/
def clearAllMsg : String :=
  "Alright, I\x27ll forget everything you told me for now. 🧹"

/-- `MemoryManager.process_input`: rule groups evaluated in priority
order forget → summary → store → query, first match wins; returns the
updated memory, the optional response, and the action string.  The
`.error` results model the unreachable `IndexError` of `match.group(1)`
on the group-less forget pattern and the `KeyError` of
`SessionMemory.remove`. -/
def process_input (now : Nat) (m : SessionMemory) (user_input : String) :
    Except String (SessionMemory × Option String × String) :=
  let low := (lowerS user_input).toList
  match firstForgetMatch low with
  | some g =>
    if chSub ( "what i told you").toList low then
      .ok (m.clear now, some clearAllMsg, "forget")
    else
      match g with
      | some tk =>
        let extracted := tk.asString
        match findActualKey m.memory extracted with
        | some actual =>
          match m.remove actual with
          | .ok (m2, _) =>
            .ok (m2, some ( "Alright, I\x27ll forget your " ++ actual ++ " for now. 🧹"),
                 "forget")
          | .error e => .error e
        | none =>
          .ok (m, some ( "I don\x27t have your " ++ extracted ++
                        " stored, so there\x27s nothing to forget. 🤷‍♀️"),
               "forget")
      | none => .error "IndexError: no such group"
  | none =>
    if anySummaryMatch low then
      .ok (m, some m.get_memory_summary, "summary")
    else
      match firstStoreMatch low with
      | some (key, rawVal) =>
        let value := (pyStrip rawVal).asString
        .ok (m.store now key value "user_input", some (storeAck key value), "store")
      | none =>
        match firstQueryMatch low with
        | some key =>
          match m.retrieve key with
          | some v =>
            if v ≠ "" then .ok (m, some (queryKnown key v), "query")
            else .ok (m, some (queryUnknown key), "query")
          | none => .ok (m, some (queryUnknown key), "query")
        | none => .ok (m, none, "none")

/-- `MemoryManager.get_context_for_nlp`. -/
def get_context_for_nlp (m : SessionMemory) : String :=
  if m.memory.isEmpty then ""
  else
    String.intercalate "\n"
      ( "User Information:" :: m.memory.map (fun kv => "- " ++ kv.1 ++ ": " ++ kv.2))

/-! ## Database rows and external capabilities -/

/-- Row returned by `db_manager.get_revenue_data`; the formatter reads
the fields with `.get(key, 0)`. -/
structure RevenueRow where
  total_revenue : Option ℚ
  transaction_count : Option ℚ
  average_transaction : Option ℚ
deriving DecidableEq, Repr

/-- Customer record; only its presence in the list is ever used. -/
abbrev CustomerRow := Unit

/-- Product record; only `item.get('category', 'Unknown')` is used. -/
structure ProductRow where
  category : Option String
deriving DecidableEq, Repr

/-- External capability state consumed by one `generate_response` turn:
the database manager (connection flag and the results of its three query
helpers, `.error` modelling a raised exception), the sentence-embedding
capability (as in `mergedScores`), and the generation pipeline (prompt
and max length to the produced `generated_text` list). -/
structure Caps where
  db_connected : Bool
  revenueResult : String → Except Unit (Option RevenueRow)
  customerResult : Except Unit (Option (List CustomerRow))
  productResult : Except Unit (Option (List ProductRow))
  sem : Option (Intent → ℚ)
  generator : Option (String → Nat → Except Unit (List String))

/-- Numeric rendering helper; Python fixed-point/comma formatting
(`{:,.2f}`, `{:,}`) is abstracted to `toString`. -/
def numStr (q : ℚ) : String := toString q

/-- `ChatbotNLP._format_revenue_response`. -/
def format_revenue_response (data : RevenueRow) (period : String) : String :=
  let period_name :=
    if period = "last_quarter" then "last quarter"
    else if period = "last_year" then "last year"
    else if period = "current_month" then "this month"
    else period
  "Great question! Here\x27s what I found in our " ++ period_name ++ " data: 📊\n\n" ++
    "• **Total Revenue**: $" ++ numStr (data.total_revenue.getD 0) ++ " 💰\n" ++
    "• **Number of Transactions**: " ++ numStr (data.transaction_count.getD 0) ++ " 📈\n" ++
    "• **Average Transaction**: $" ++ numStr (data.average_transaction.getD 0) ++ " 📊\n\n" ++
    "I hope this information is helpful! Is there anything specific about these numbers you\x27d like me to explain? 😊"

/-- `ChatbotNLP._format_customer_response`. -/
def format_customer_response (data : List CustomerRow) : String :=
  "Awesome! I\x27m happy to share that we currently have **" ++
    toString data.length ++
    " wonderful customers** in our database! 🎉\n\n" ++
    "That\x27s quite a community we\x27re building! Is there anything specific about our customers you\x27d like to know more about? 😊"

/-- `ChatbotNLP._format_product_response`; `set(...)` becomes the number
of distinct categories. -/
def format_product_response (data : List ProductRow) : String :=
  let categories := (data.map (fun it => it.category.getD "Unknown")).dedup
  "Fantastic! I\x27m excited to tell you about our product offerings! 🛍️\n\n" ++
    "We currently offer **" ++ toString data.length ++
    " amazing products** across **" ++ toString categories.length ++
    " different categories**! 📦\n\n" ++
    "That\x27s quite a diverse selection! Would you like me to tell you more about any specific category or product? 😊"

/-- `ChatbotNLP._handle_database_query`: derives the revenue period from
utterance keywords, queries the database manager, formats a non-empty
result; any exception is caught and yields `None`, as does empty data. -/
def handle_database_query (caps : Caps) (intent : Intent) (user_input : String) :
    Option String :=
  match intent with
  | .revenue_query =>
    let low := lowerS user_input
    let period :=
      if strContainsS low "quarter" then "last_quarter"
      else if strContainsS low "year" then "last_year"
      else if strContainsS low "month" then "current_month"
      else "last_quarter"
    match caps.revenueResult period with
    | .ok (some row) => some (format_revenue_response row period)
    | _ => none
  | .customer_query =>
    match caps.customerResult with
    | .ok (some l) => if l.isEmpty then none else some (format_customer_response l)
    | _ => none
  | .product_query =>
    match caps.productResult with
    | .ok (some l) => if l.isEmpty then none else some (format_product_response l)
    | _ => none
  | _ => none

/-! ## Fallback responses (`ChatbotNLP._get_fallback_response`) -/

/-- The static per-intent fallback table. -/
def fallbackTable : Intent → String
  | .revenue_query =>
    "I\x27m sorry, I couldn\x27t retrieve the revenue information at the moment. Please try again later or contact our support team."
  | .customer_query =>
    "I\x27m unable to access customer data right now. Please check back later or reach out to our team for assistance."
  | .product_query =>
    "I\x27m having trouble accessing product information. Please try again later or contact our support team."
  | .greeting =>
    "Hi there! I\x27m Yara, and I\x27m so excited to meet you! 😊 How can I help you today?"
  | .personal_question =>
    "I\x27m Yara, your friendly AI assistant! I\x27m here to help with conversations, answer questions, and provide insights from your data. I love being helpful and making our chats enjoyable! ✨"
  | .gratitude =>
    "You\x27re very welcome! I\x27m so glad I could help! 😊 It makes me happy when I can be useful to you."
  | .farewell =>
    "Goodbye! It was wonderful chatting with you! Take care and come back anytime - I\x27ll be here ready to help! 👋✨"
  | .memory_query =>
    "I\x27m not sure I understood that question. Could you rephrase it or ask me something else? 🤔"
  | .memory_store =>
    "I\x27m not sure I understood that. Could you rephrase it or ask me something else? 🤔"
  | .memory_manage =>
    "I\x27m not sure I understood that request. Could you rephrase it or ask me something else? 🤔"
  | .general_chat =>
    "I\x27m not sure I understood that, could you rephrase? 🤔"

/-- The `enhanced_fallbacks['personal_question']` sub-table, in dict
insertion order. -/
def enhancedPersonal : List (String × String) :=
  [ ( "who are you",
      "I\x27m Yara, your friendly AI assistant! I\x27m here to help with conversations, answer questions, and provide insights from your data. I love being helpful and making our chats enjoyable! ✨"),
    ( "what\x27s your name",
      "My name is Yara! I\x27m your friendly AI assistant, and I\x27m excited to help you with whatever you need! 😊"),
    ( "tell me about yourself",
      "I\x27m Yara, a friendly and enthusiastic AI assistant! I love helping people, answering questions, and making conversations enjoyable. I\x27m here to assist you with both general chat and data insights! ✨"),
    ( "what can you do",
      "I can help you with conversations, answer questions, provide insights from your data, and be a friendly chat companion! I\x27m Yara, and I\x27m excited to assist you! 😊") ]

/-- `ChatbotNLP._get_fallback_response`: the enhanced personal-question
sub-phrasings are checked first, then the static table. -/
def get_fallback_response (intent : Intent) (user_input : String) : String :=
  let low := lowerS user_input
  match intent with
  | .personal_question =>
    match firstHit
        (fun pr => if strContainsS low pr.1 then some pr.2 else none)
        enhancedPersonal with
    | some r => r
    | none => fallbackTable intent
  | _ => fallbackTable intent

/-- `ChatbotNLP._force_fallback_for_intent`. -/
def force_fallback_for_intent (caps : Caps) (intent : Intent) (user_input : String) :
    Option String :=
  if intent = .personal_question then some (get_fallback_response intent user_input)
  else if intent = .greeting then some (get_fallback_response intent user_input)
  else if intent = .gratitude ∨ intent = .farewell then
    some (get_fallback_response intent user_input)
  else if intent = .memory_query ∨ intent = .memory_store ∨ intent = .memory_manage then
    some (get_fallback_response intent user_input)
  else if caps.db_connected = false ∧ intent ∈ dbIntents then
    some (get_fallback_response intent user_input)
  else none

/-! ## Response validation (`ChatbotNLP._is_valid_response`) -/

/-- The fixed blacklist `inappropriate_phrases`. -/
def inappropriate_phrases : List String :=
  [ "waifu", "hero that\x27s needed", "who is this", "tell me about your",
    "i am the", "i am a", "i am", "i\x27m the", "i\x27m a" ]

/-- The fixed identity keywords `personal_keywords`. -/
def personal_keywords : List String :=
  [ "yara", "assistant", "ai", "help", "friendly", "helpful" ]

/-- `ChatbotNLP._is_valid_response`. -/
def is_valid_response (cfg : AppCfg) (response user_input : String)
    (intent : Intent) : Bool :=
  if cfg.ENABLE_RESPONSE_VALIDATION = false then true
  else if response = "" ∨ (pyStripS response).length < cfg.MIN_RESPONSE_LENGTH then
    false
  else
    let response_lower := lowerS response
    if inappropriate_phrases.any (fun p => strContainsS response_lower p) then false
    else if intent = .personal_question
        ∧ strContainsS (lowerS user_input) "who are you"
        ∧ personal_keywords.all (fun k => !strContainsS response_lower k) then
      false
    else if cfg.MAX_RESPONSE_LENGTH < (pyStripS response).length then false
    else true

/-! ## Generation branch and the orchestration chain -/

/-- The fixed persona instruction of the prompt. -/
def personality_instruction : String :=
  "You are Yara, a friendly, enthusiastic, and helpful AI assistant. Always be warm, encouraging, and use emojis to make conversations enjoyable. Be genuinely interested in helping users and show enthusiasm for their questions."

/-- Prompt built before invoking the generator (context, memory block,
persona, user line, assistant marker, joined by newlines). -/
def build_prompt (ctx : Option String) (m : SessionMemory) (user_input : String) :
    String :=
  let memory_context := get_context_for_nlp m
  let parts :=
    (match ctx with
     | some c => [ "Context: " ++ c]
     | none => []) ++
    (if memory_context ≠ "" then [ "Memory: " ++ memory_context] else []) ++
    [personality_instruction, "User: " ++ user_input, "Yara:"]
  String.intercalate "\n" parts

/-- Result of the single generator invocation: `none` when the pipeline
is absent (`self.generator is None`) or the call raised (caught by the
`except` block). -/
def raw_generation (caps : Caps) (ctx : Option String) (m : SessionMemory)
    (user_input : String) : Option (List String) :=
  match caps.generator with
  | none => none
  | some g =>
    let full := build_prompt ctx m user_input
    match g full (pyWordCount full + 50) with
    | .error _ => none
    | .ok outs => some outs

/-- Generation step of `generate_response`: extract the text after the
last assistant marker, validate it, fall back on failure. -/
def generation_step (cfg : AppCfg) (caps : Caps) (ctx : Option String)
    (m : SessionMemory) (intent : Intent) (user_input : String) : String :=
  match raw_generation caps ctx m user_input with
  | none => get_fallback_response intent user_input
  | some [] => get_fallback_response intent user_input
  | some (t :: _) =>
    let yara_response :=
      pyStripS (if strContainsS t "Yara:" then afterLastS "Yara:" t
                else afterLastS "Assistant:" t)
    if is_valid_response cfg yara_response user_input intent then yara_response
    else get_fallback_response intent user_input

/-- Decision chain of `generate_response` after the memory short-circuit
returned no response: classify, database branch, low-confidence
fallback, forced fallback, generation. -/
def respond_after_memory (cfg : AppCfg) (caps : Caps) (ctx : Option String)
    (m : SessionMemory) (user_input : String) : String :=
  let ic := recognize_intent cfg caps.sem user_input
  let dbResp : Option String :=
    if caps.db_connected = true ∧ ic.1 ∈ dbIntents then
      handle_database_query caps ic.1 user_input
    else none
  match dbResp with
  | some r => r
  | none =>
    if ic.2 < cfg.INTENT_THRESHOLD then get_fallback_response ic.1 user_input
    else
      match force_fallback_for_intent caps ic.1 user_input with
      | some r => r
      | none => generation_step cfg caps ctx m ic.1 user_input

/-- `ChatbotNLP.generate_response`: memory engine first (its response
short-circuits everything), then the decision chain.  The `Except` layer
propagates the (unreachable) exceptions of `process_input`. -/
def generate_response (cfg : AppCfg) (caps : Caps) (ctx : Option String)
    (now : Nat) (m : SessionMemory) (user_input : String) :
    Except String (SessionMemory × String) :=
  match process_input now m user_input with
  | .error e => .error e
  | .ok (m2, some r, _) => .ok (m2, r)
  | .ok (m2, none, _) => .ok (m2, respond_after_memory cfg caps ctx m2 user_input)

/-! ## Conversation history (`ChatbotNLP.add_to_history`) -/

/-- One conversation turn; the source stores `timestamp: None`. -/
structure ConversationTurn where
  user : String
  assistant : String
  timestamp : Option Nat
deriving DecidableEq, Repr

/-- `ChatbotNLP.add_to_history`: append, then pop the oldest entry if the
length exceeds the configured maximum. -/
def add_to_history (maxLen : Nat) (history : List ConversationTurn)
    (user_input response : String) : List ConversationTurn :=
  let h2 := history ++ [⟨user_input, response, none⟩]
  if maxLen < h2.length then h2.drop 1 else h2

/-- Fold a sequence of turns through `add_to_history`. -/
def foldHistory (maxLen : Nat) (ts : List (String × String)) :
    List ConversationTurn :=
  ts.foldl (fun h p => add_to_history maxLen h p.1 p.2) []

/-! ## Operation sequences over `SessionMemory` -/

/-- One abstract memory operation. -/
inductive MemOp where
  | storeKV (k v : String)
  | removeKey (k : String)
  | clearAll
deriving DecidableEq, Repr

/-- Apply one operation (the `remove` error case, unreachable from
well-formed states, leaves the state unchanged). -/
def applyOp (now : Nat) (m : SessionMemory) : MemOp → SessionMemory
  | .storeKV k v => m.store now k v "user_input"
  | .removeKey k =>
    match m.remove k with
    | .ok (m2, _) => m2
    | .error _ => m
  | .clearAll => m.clear now

/-- Apply a sequence of operations from the left. -/
def applyOps (now : Nat) (ops : List MemOp) (m : SessionMemory) : SessionMemory :=
  ops.foldl (applyOp now) m

/-- Well-formedness of a `SessionMemory`: the two dicts have the same
keys, without duplicates (Python dicts cannot duplicate keys). -/
def MemWf (m : SessionMemory) : Prop :=
  akeys m.memory = akeys m.memory_metadata ∧ (akeys m.memory).Nodup

instance : DecidablePred MemWf := fun m => by
  unfold MemWf; infer_instance

/-! ## Claim-side comparison definitions -/

/-- Merge rule stated by the specification: sum per intent, a key present
in only one map keeps its own value. -/
def mergeSpec : Option ℚ → Option ℚ → Option ℚ
  | some a, some b => some (a + b)
  | some a, none => some a
  | none, some b => some b
  | none, none => none

/-- Semantic score map as a function of the capability state: empty when
the embedding capability is absent, total otherwise. -/
def semMap (sem : Option (Intent → ℚ)) : Intent → Option ℚ :=
  match sem with
  | none => fun _ => none
  | some f => fun i => some (f i)

/-- Claim-side reading of the classifier when the semantic capability is
absent: the decision rule applied to the pattern scores alone. -/
def patternOnlyClassify (cfg : AppCfg) (text : String) : Intent × ℚ :=
  match buildScores (lowerL text) intent_patterns with
  | [] => (.general_chat, 1 / 2)
  | x :: xs =>
    let best := bestOf x xs
    let confidence := min best.2 1
    if cfg.INTENT_THRESHOLD ≤ confidence then (best.1, confidence)
    else (.general_chat, 1 / 2)

/-- Claim-side reading of a match count `counting overlapping matches`:
the number of positions at which the pattern matches. -/
def overlapCount (p : Pat) (cs : List Char) : Nat :=
  (cs.tails.filter (fun t => (matchAt p t).isSome)).length

/-- Rules of one intent in the `intent_patterns` table. -/
def patsOfIntent (i : Intent) : List Pat :=
  ((intent_patterns.find? (fun e => e.1 = i)).map (·.2)).getD []

/-- Total non-overlapping (Python `re.findall`) match count of an
intent's rules. -/
def totalMatches (low : List Char) (i : Intent) : Nat :=
  ((patsOfIntent i).map (fun p => scanCount p low)).sum

/-- Total overlapping-position match count of an intent's rules. -/
def overlapTotal (low : List Char) (i : Intent) : Nat :=
  ((patsOfIntent i).map (fun p => overlapCount p low)).sum

/-! ## Association-list lemmas -/

/-- Erase the first occurrence of a key from a key list. -/
def kerase [DecidableEq κ] (k : κ) : List κ → List κ
  | [] => []
  | j :: t => if j = k then t else j :: kerase k t

theorem alook_aset_self [DecidableEq κ] (k : κ) (v : α) (l : List (κ × α)) :
    alook (aset k v l) k = some v := by
  induction l with
  | nil => simp [aset, alook]
  | cons hd t ih =>
    obtain ⟨j, w⟩ := hd
    by_cases hj : j = k
    · simp [aset, hj, alook]
    · simp [aset, hj, alook, ih]

theorem alook_aset_ne [DecidableEq κ] (k k' : κ) (v : α) (l : List (κ × α))
    (h : k' ≠ k) : alook (aset k v l) k' = alook l k' := by
  induction l with
  | nil => simp [aset, alook, Ne.symm h]
  | cons hd t ih =>
    obtain ⟨j, w⟩ := hd
    by_cases hj : j = k
    · subst hj
      simp [aset, alook, Ne.symm h]
    · by_cases hj' : j = k'
      · subst hj'
        simp [aset, hj, alook]
      · simp [aset, hj, alook, hj', ih]

theorem akeys_aset [DecidableEq κ] (k : κ) (v : α) (l : List (κ × α)) :
    akeys (aset k v l) = if k ∈ akeys l then akeys l else akeys l ++ [k] := by
  induction l with
  | nil => simp [aset, akeys]
  | cons hd t ih =>
    obtain ⟨j, w⟩ := hd
    by_cases hj : j = k
    · simp [aset, hj, akeys]
    · have hne : ¬ (k = j) := fun hh => hj hh.symm
      simp only [aset, if_neg hj, akeys, List.map_cons]
      simp only [akeys] at ih
      by_cases hk : k ∈ t.map (·.1)
      · simp [List.mem_cons, hne, hk, ih]
      · simp [List.mem_cons, hne, hk, ih]

theorem akeys_aerase [DecidableEq κ] (k : κ) (l : List (κ × α)) :
    akeys (aerase k l) = kerase k (akeys l) := by
  induction l with
  | nil => simp [aerase, akeys, kerase]
  | cons hd t ih =>
    obtain ⟨j, w⟩ := hd
    by_cases hj : j = k
    · simp [aerase, hj, akeys, kerase]
    · simp only [aerase, if_neg hj, akeys, List.map_cons, kerase]
      exact congrArg (List.cons j) (by simpa [akeys] using ih)

theorem kerase_sublist [DecidableEq κ] (k : κ) (l : List κ) :
    List.Sublist (kerase k l) l := by
  induction l with
  | nil => simp [kerase]
  | cons j t ih =>
    by_cases hj : j = k
    · simp only [kerase, if_pos hj]
      exact List.sublist_cons_self j t
    · simp only [kerase, if_neg hj]
      exact ih.cons₂ j

theorem alook_isSome_iff_mem [DecidableEq κ] (l : List (κ × α)) (k : κ) :
    (alook l k).isSome ↔ k ∈ akeys l := by
  induction l with
  | nil => simp [alook, akeys]
  | cons hd t ih =>
    obtain ⟨j, w⟩ := hd
    by_cases hj : j = k
    · simp [alook, hj, akeys]
    · have hne : ¬ (k = j) := fun hh => hj hh.symm
      simp [alook, hj, akeys, ih, hne]

theorem alook_eq_none_of_not_mem [DecidableEq κ] (l : List (κ × α)) (k : κ)
    (h : k ∉ akeys l) : alook l k = none := by
  have hns := (alook_isSome_iff_mem l k).not.mpr h
  cases hx : alook l k with
  | none => rfl
  | some v => exact absurd (by simp [hx]) hns

theorem alook_aerase_self [DecidableEq κ] (l : List (κ × α)) (k : κ)
    (hnd : (akeys l).Nodup) : alook (aerase k l) k = none := by
  induction l with
  | nil => simp [aerase, alook]
  | cons hd t ih =>
    obtain ⟨j, w⟩ := hd
    simp only [akeys, List.map_cons, List.nodup_cons] at hnd
    by_cases hj : j = k
    · subst hj
      have he : aerase j ((j, w) :: t) = t := by simp [aerase]
      rw [he]
      exact alook_eq_none_of_not_mem t j (by simpa [akeys] using hnd.1)
    · simp only [aerase, if_neg hj, alook, if_neg hj]
      exact ih hnd.2

/-! ## Well-formedness of `SessionMemory` under its operations -/

theorem memWf_init (now0 : Nat) : MemWf (SessionMemory.init now0) := by
  constructor <;> simp [SessionMemory.init, akeys]

theorem memWf_store (m : SessionMemory) (now : Nat) (k v src : String)
    (h : MemWf m) : MemWf (m.store now k v src) := by
  obtain ⟨hkeys, hnd⟩ := h
  constructor
  · show akeys (aset k v m.memory)
        = akeys (aset k ⟨now, src, now - m.session_start⟩ m.memory_metadata)
    rw [akeys_aset, akeys_aset, hkeys]
  · show (akeys (aset k v m.memory)).Nodup
    rw [akeys_aset]
    by_cases hk : k ∈ akeys m.memory
    · simpa [hk] using hnd
    · simp only [hk, if_false]
      rw [List.nodup_append]
      refine ⟨hnd, List.nodup_singleton k, ?_⟩
      intro a ha hb
      simp only [List.mem_singleton] at hb
      exact hk (hb ▸ ha)

theorem remove_of_mem (m : SessionMemory) (k : String) (h : MemWf m)
    (hk : (alook m.memory k).isSome) :
    m.remove k =
      .ok (⟨aerase k m.memory, aerase k m.memory_metadata, m.session_start⟩, true) := by
  obtain ⟨hkeys, hnd⟩ := h
  have hk2 : (alook m.memory_metadata k).isSome := by
    rw [alook_isSome_iff_mem, ← hkeys, ← alook_isSome_iff_mem]
    exact hk
  simp [SessionMemory.remove, hk, hk2]

theorem remove_of_not_mem (m : SessionMemory) (k : String)
    (hk : alook m.memory k = none) : m.remove k = .ok (m, false) := by
  simp [SessionMemory.remove, hk]

theorem memWf_applyOp (now : Nat) (m : SessionMemory) (op : MemOp)
    (h : MemWf m) : MemWf (applyOp now m op) := by
  cases op with
  | storeKV k v => exact memWf_store m now k v "user_input" h
  | removeKey k =>
    by_cases hk : (alook m.memory k).isSome
    · rw [show applyOp now m (.removeKey k)
          = ⟨aerase k m.memory, aerase k m.memory_metadata, m.session_start⟩ by
        simp [applyOp, remove_of_mem m k h hk]]
      obtain ⟨hkeys, hnd⟩ := h
      constructor
      · show akeys (aerase k m.memory) = akeys (aerase k m.memory_metadata)
        rw [akeys_aerase, akeys_aerase, hkeys]
      · show (akeys (aerase k m.memory)).Nodup
        rw [akeys_aerase]
        exact hnd.sublist (kerase_sublist k (akeys m.memory))
    · have hno : alook m.memory k = none := by
        cases hx : alook m.memory k with
        | none => rfl
        | some v => exact absurd (by simp [hx]) hk
      rw [show applyOp now m (.removeKey k) = m by
        simp [applyOp, remove_of_not_mem m k hno]]
      exact h
  | clearAll =>
    constructor <;> simp [applyOp, SessionMemory.clear, akeys]

theorem memWf_applyOps (now : Nat) (ops : List MemOp) (m : SessionMemory)
    (h : MemWf m) : MemWf (applyOps now ops m) := by
  induction ops generalizing m with
  | nil => exact h
  | cons op rest ih =>
    exact ih (applyOp now m op) (memWf_applyOp now m op h)

/-- Claim C10: along every operation sequence the memory and metadata
dicts stay key-synchronised; `remove` deletes from both and returns
`True` exactly when the key is present, leaving the state unchanged and
returning `False` otherwise; `clear` empties both dicts and resets the
session start. -/
theorem memory_metadata_sync :
    (∀ (now0 now : Nat) (ops : List MemOp),
      akeys (applyOps now ops (SessionMemory.init now0)).memory
        = akeys (applyOps now ops (SessionMemory.init now0)).memory_metadata)
    ∧ (∀ (m : SessionMemory) (k : String), MemWf m →
        ((alook m.memory k).isSome →
          m.remove k =
            .ok (⟨aerase k m.memory, aerase k m.memory_metadata,
                  m.session_start⟩, true)
          ∧ alook (aerase k m.memory) k = none
          ∧ alook (aerase k m.memory_metadata) k = none))
    ∧ (∀ (m : SessionMemory) (k : String),
        alook m.memory k = none → m.remove k = .ok (m, false))
    ∧ (∀ (m : SessionMemory) (now : Nat),
        (m.clear now).memory = [] ∧ (m.clear now).memory_metadata = []
          ∧ (m.clear now).session_start = now) := by
  refine ⟨?_, ?_, ?_, ?_⟩
  · intro now0 now ops
    exact (memWf_applyOps now ops (SessionMemory.init now0) (memWf_init now0)).1
  · intro m k h hk
    obtain ⟨hkeys, hnd⟩ := h
    refine ⟨remove_of_mem m k ⟨hkeys, hnd⟩ hk, ?_, ?_⟩
    · exact alook_aerase_self m.memory k hnd
    · exact alook_aerase_self m.memory_metadata k (hkeys ▸ hnd)
  · intro m k hk
    exact remove_of_not_mem m k hk
  · intro m now
    exact ⟨rfl, rfl, rfl⟩

/-- Witness for `memory_metadata_sync` at a concrete state. -/
theorem memory_metadata_sync_witness :
    ((SessionMemory.init 0).store 0 "name" "alex" "user_input").remove "name"
      = .ok (⟨[], [], 0⟩, true) := by
  have h := (memory_metadata_sync.2.1
    ((SessionMemory.init 0).store 0 "name" "alex" "user_input") "name"
    (by decide) (by decide)).1
  simpa using h

/-! ## History lemmas -/

theorem rtake_of_le (n : Nat) (l : List α) (h : l.length ≤ n) :
    rtake n l = l := by
  have : l.reverse.length ≤ n := by simpa using h
  simp [rtake, List.take_of_length_le this]

theorem rtake_of_length_succ (n : Nat) (l : List α) (h : l.length = n + 1) :
    rtake n l = l.drop 1 := by
  cases l with
  | nil => simp at h
  | cons a t =>
    have ht : t.length = n := by simpa using h
    have hlen : n ≤ t.reverse.length := by simp [ht]
    calc rtake n (a :: t)
        = ((t.reverse ++ [a]).take n).reverse := by simp [rtake]
      _ = (t.reverse.take n).reverse := by rw [List.take_append_of_le_length hlen]
      _ = t := by
          rw [List.take_of_length_le (by simp [ht])]
          simp
      _ = (a :: t).drop 1 := by simp

theorem rtake_append_rtake (n : Nat) (a b : List α) :
    rtake n (rtake n a ++ b) = rtake n (a ++ b) := by
  unfold rtake
  rw [List.reverse_append, List.reverse_reverse, List.reverse_append]
  rw [List.take_append_eq_append_take, List.take_append_eq_append_take]
  congr 1
  rw [List.take_take, min_eq_left (Nat.sub_le n b.reverse.length)]

theorem add_to_history_length_le (maxLen : Nat) (h : List ConversationTurn)
    (u r : String) (hh : h.length ≤ maxLen) :
    (add_to_history maxLen h u r).length ≤ maxLen := by
  unfold add_to_history
  by_cases hc : maxLen < (h ++ [(⟨u, r, none⟩ : ConversationTurn)]).length
  · rw [if_pos hc]
    simp at hc ⊢
    omega
  · rw [if_neg hc]
    simp at hc ⊢
    omega

theorem add_to_history_eq_rtake (maxLen : Nat) (h : List ConversationTurn)
    (u r : String) (hh : h.length ≤ maxLen) :
    add_to_history maxLen h u r = rtake maxLen (h ++ [⟨u, r, none⟩]) := by
  unfold add_to_history
  by_cases hc : maxLen < (h ++ [(⟨u, r, none⟩ : ConversationTurn)]).length
  · rw [if_pos hc]
    have hlen : (h ++ [(⟨u, r, none⟩ : ConversationTurn)]).length = maxLen + 1 := by
      simp at hc ⊢
      omega
    rw [rtake_of_length_succ maxLen _ hlen]
  · rw [if_neg hc]
    rw [rtake_of_le maxLen _ (by simp at hc ⊢; omega)]

theorem foldHistory_rtake (maxLen : Nat) :
    ∀ (ts : List (String × String)) (h : List ConversationTurn),
      h.length ≤ maxLen →
      ts.foldl (fun acc p => add_to_history maxLen acc p.1 p.2) h
        = rtake maxLen (h ++ ts.map (fun p => ⟨p.1, p.2, none⟩)) := by
  intro ts
  induction ts with
  | nil =>
    intro h hh
    simp [rtake_of_le maxLen h hh]
  | cons p ts ih =>
    intro h hh
    simp only [List.foldl_cons, List.map_cons]
    rw [ih _ (add_to_history_length_le maxLen h p.1 p.2 hh),
        add_to_history_eq_rtake maxLen h p.1 p.2 hh, rtake_append_rtake]
    simp

/-- Claim C8: the conversation history is a bounded FIFO — one append to
a history within the bound stays within the bound and keeps exactly the
most recent turns in order, and appending `max_length + 1` turns to an
empty history leaves exactly `max_length` turns with the oldest evicted. -/
theorem history_fifo_bound :
    (∀ (maxLen : Nat) (h : List ConversationTurn) (u r : String),
      h.length ≤ maxLen →
      (add_to_history maxLen h u r).length ≤ maxLen
        ∧ add_to_history maxLen h u r = rtake maxLen (h ++ [⟨u, r, none⟩]))
    ∧ (∀ (maxLen : Nat) (ts : List (String × String)),
        ts.length = maxLen + 1 →
        foldHistory maxLen ts
            = (ts.map (fun p => (⟨p.1, p.2, none⟩ : ConversationTurn))).drop 1
          ∧ (foldHistory maxLen ts).length = maxLen) := by
  constructor
  · intro maxLen h u r hh
    exact ⟨add_to_history_length_le maxLen h u r hh,
           add_to_history_eq_rtake maxLen h u r hh⟩
  · intro maxLen ts hlen
    have h0 : ([] : List ConversationTurn).length ≤ maxLen := by simp
    have hm : (ts.map (fun p => (⟨p.1, p.2, none⟩ : ConversationTurn))).length
        = maxLen + 1 := by simpa using hlen
    have := foldHistory_rtake maxLen ts [] h0
    rw [List.nil_append] at this
    constructor
    · rw [foldHistory, this, rtake_of_length_succ maxLen _ hm]
    · rw [foldHistory, this, rtake_of_length_succ maxLen _ hm]
      simp [hm]

/-- Witness for `history_fifo_bound` at `max_length = 2` and three
appended turns. -/
theorem history_fifo_bound_witness :
    foldHistory 2 [("a", "1"), ("b", "2"), ("c", "3")]
        = [⟨"b", "2", none⟩, ⟨"c", "3", none⟩]
      ∧ add_to_history 2 [⟨"a", "1", none⟩] "b" "2"
        = rtake 2 [⟨"a", "1", none⟩, ⟨"b", "2", none⟩] := by
  constructor
  · have h := (history_fifo_bound.2 2 [("a", "1"), ("b", "2"), ("c", "3")]
      (by decide)).1
    simpa using h
  · exact (history_fifo_bound.1 2 [⟨"a", "1", none⟩] "b" "2" (by decide)).2

/-! ## Pattern-score lemmas -/

theorem patScore_aux (low : List Char) (ps : List Pat) :
    ∀ q : ℚ,
      ps.foldl (fun score p => score + (scanCount p low : ℚ) * (3 / 10)) q
        = q + (3 / 10) * (((ps.map (fun p => scanCount p low)).sum : ℕ) : ℚ) := by
  induction ps with
  | nil => intro q; simp
  | cons p ps ih =>
    intro q
    simp only [List.foldl_cons, List.map_cons, List.sum_cons]
    rw [ih]
    push_cast
    ring

theorem patIntentScore_eq (low : List Char) (ps : List Pat) :
    patIntentScore low ps
      = (3 / 10) * (((ps.map (fun p => scanCount p low)).sum : ℕ) : ℚ) := by
  unfold patIntentScore
  rw [patScore_aux]
  simp

theorem patIntentScore_pos_iff (low : List Char) (ps : List Pat) :
    0 < patIntentScore low ps ↔ (ps.map (fun p => scanCount p low)).sum ≠ 0 := by
  rw [patIntentScore_eq]
  constructor
  · intro h hn
    rw [hn] at h
    simp at h
  · intro hn
    have hpos : (0 : ℚ) < (((ps.map (fun p => scanCount p low)).sum : ℕ) : ℚ) := by
      exact_mod_cast Nat.pos_of_ne_zero hn
    have h3 : (0 : ℚ) < 3 / 10 := by norm_num
    exact mul_pos h3 hpos

/-- Nat-level summary of the pattern-score dict: each scored intent with
its total match count (kernel-computable, unlike the `ℚ` scores). -/
def scoreTotals (low : List Char) (table : List (Intent × List Pat)) :
    List (Intent × Nat) :=
  table.filterMap (fun e =>
    let t := (e.2.map (fun p => scanCount p low)).sum
    if t = 0 then none else some (e.1, t))

theorem buildScores_eq_scoreTotals (low : List Char)
    (table : List (Intent × List Pat)) :
    buildScores low table
      = (scoreTotals low table).map (fun p => (p.1, (3 / 10 : ℚ) * (p.2 : ℕ))) := by
  induction table with
  | nil => rfl
  | cons e rest ih =>
    obtain ⟨k, ps⟩ := e
    simp only [buildScores, scoreTotals, List.filterMap_cons]
    by_cases h : (ps.map (fun p => scanCount p low)).sum = 0
    · have hneg : ¬ 0 < patIntentScore low ps := by
        rw [patIntentScore_pos_iff]
        simpa using h
      simp only [scoreTotals] at ih
      simp [h, hneg, ih]
    · have hpos : 0 < patIntentScore low ps := (patIntentScore_pos_iff low ps).mpr h
      simp only [scoreTotals] at ih
      rw [if_pos hpos, if_neg h, patIntentScore_eq, ih, List.map_cons]
      rfl

theorem alook_condSingle_ne (i j : Intent) (hne : j ≠ i) (c : Prop)
    [Decidable c] (s : ℚ) (rest : List (Intent × ℚ)) :
    alook ((if c then [(j, s)] else []) ++ rest) i = alook rest i := by
  by_cases hc : c <;> simp [hc, alook, hne]

theorem buildScores_keys_sub (low : List Char) :
    ∀ (table : List (Intent × List Pat)) (j : Intent),
      j ∈ akeys (buildScores low table) → j ∈ akeys table := by
  intro table
  induction table with
  | nil => intro j h; simpa [buildScores, akeys] using h
  | cons e rest ih =>
    obtain ⟨k, ps⟩ := e
    intro j h
    simp only [buildScores, akeys, List.map_append, List.mem_append] at h
    rcases h with h | h
    · by_cases hc : 0 < patIntentScore low ps
      · simp [hc] at h
        simp [akeys, h]
      · simp [hc] at h
    · have := ih j (by simpa [akeys] using h)
      simp [akeys] at this ⊢
      exact Or.inr this

theorem alook_buildScores (low : List Char) :
    ∀ (table : List (Intent × List Pat)) (i : Intent),
      (akeys table).Nodup →
      alook (buildScores low table) i
        = (match table.find? (fun e => e.1 = i) with
           | some e =>
             if 0 < patIntentScore low e.2 then some (patIntentScore low e.2)
             else none
           | none => none) := by
  intro table
  induction table with
  | nil => intro i _; simp [buildScores, alook]
  | cons e rest ih =>
    obtain ⟨k, ps⟩ := e
    intro i hnd
    simp only [akeys, List.map_cons, List.nodup_cons] at hnd
    by_cases hk : k = i
    · subst hk
      have hnone : alook (buildScores low rest) k = none := by
        apply alook_eq_none_of_not_mem
        intro hmem
        exact hnd.1 (by simpa [akeys] using buildScores_keys_sub low rest k hmem)
      simp only [buildScores, List.find?, decide_True, decide_eq_true_eq]
      by_cases hc : 0 < patIntentScore low ps
      · simp [hc, alook]
      · simp [hc, alook, hnone]
    · have hfind : ((k, ps) :: rest).find? (fun e => e.1 = i)
          = rest.find? (fun e => e.1 = i) := by
        simp [List.find?, hk]
      rw [hfind]
      rw [show buildScores low ((k, ps) :: rest)
          = (if 0 < patIntentScore low ps then [(k, patIntentScore low ps)] else [])
            ++ buildScores low rest from rfl]
      rw [alook_condSingle_ne i k hk]
      exact ih i hnd.2

theorem find?_intent_patterns (i : Intent) :
    intent_patterns.find? (fun e => e.1 = i) = some (i, patsOfIntent i) := by
  cases i <;> rfl

theorem intent_patterns_keys_nodup : (akeys intent_patterns).Nodup := by
  decide

/-- Claim C5 (amended): for every utterance and intent, the
pattern-score dict binds the intent to `0.3 ×` its total `re.findall`
match count (non-overlapping per rule, summed over the intent's rules on
the lowercased utterance) exactly when that total is nonzero, and omits
the intent otherwise. -/
theorem pattern_score_formula (text : String) (i : Intent) :
    alook (buildScores (lowerL text) intent_patterns) i
      = (if totalMatches (lowerL text) i = 0 then none
         else some ((3 / 10) * (totalMatches (lowerL text) i : ℚ))) := by
  rw [alook_buildScores (lowerL text) intent_patterns i intent_patterns_keys_nodup,
      find?_intent_patterns i]
  simp only [totalMatches]
  by_cases h : (List.map (fun p => scanCount p (lowerL text)) (patsOfIntent i)).sum = 0
  · have hneg : ¬ 0 < patIntentScore (lowerL text) (patsOfIntent i) := by
      rw [patIntentScore_pos_iff]
      simpa using h
    rw [if_neg hneg, if_pos h]
  · have hpos : 0 < patIntentScore (lowerL text) (patsOfIntent i) :=
      (patIntentScore_pos_iff _ _).mpr h
    rw [if_pos hpos, if_neg h, patIntentScore_eq]

/-- Counterexample for claim C5 as stated: on the utterance
`"i am i am x"` the rule `i am \w+` of `memory_store` matches at two
(overlapping) positions but `re.findall` counts only one, so the actual
score `0.3` differs from `0.3 ×` the overlapping count `0.6`. -/
theorem pattern_score_overlap_counterexample :
    alook (buildScores (lowerL "i am i am x") intent_patterns) Intent.memory_store
        = some (3 / 10)
      ∧ overlapTotal (lowerL "i am i am x") Intent.memory_store = 2
      ∧ ((3 : ℚ) / 10) ≠ (3 / 10) * ((2 : ℕ) : ℚ) := by
  refine ⟨?_, by decide, by norm_num⟩
  rw [alook_buildScores (lowerL "i am i am x") intent_patterns Intent.memory_store
        intent_patterns_keys_nodup, find?_intent_patterns]
  have hsum : (List.map (fun p => scanCount p (lowerL "i am i am x"))
      (patsOfIntent Intent.memory_store)).sum = 1 := by decide
  have hpos : 0 < patIntentScore (lowerL "i am i am x")
      (patsOfIntent Intent.memory_store) := by
    rw [patIntentScore_pos_iff, hsum]
    decide
  show (if 0 < patIntentScore (lowerL "i am i am x") (patsOfIntent Intent.memory_store)
      then some (patIntentScore (lowerL "i am i am x") (patsOfIntent Intent.memory_store))
      else none) = some (3 / 10)
  rw [if_pos hpos, patIntentScore_eq, hsum]
  norm_num

/-! ## Classifier lemmas -/

theorem mergeSpec_none_right (o : Option ℚ) : mergeSpec o none = o := by
  cases o <;> rfl

theorem alook_mergeFold (f : Intent → ℚ) (L : List Intent) :
    ∀ (d : List (Intent × ℚ)) (i : Intent), L.Nodup →
      alook (L.foldl (mergeStep f) d) i
        = if i ∈ L then mergeSpec (alook d i) (some (f i)) else alook d i := by
  induction L with
  | nil => intro d i _; simp
  | cons a L ih =>
    intro d i hnd
    obtain ⟨haL, hndL⟩ := List.nodup_cons.mp hnd
    simp only [List.foldl_cons]
    rw [ih _ i hndL]
    by_cases ha : i = a
    · subst ha
      rw [if_neg haL, if_pos (List.mem_cons_self i L)]
      unfold mergeStep
      cases hl : alook d i with
      | some v => simp [alook_aset_self, mergeSpec]
      | none => simp [alook_aset_self, mergeSpec]
    · have h1 : alook (mergeStep f d a) i = alook d i := by
        unfold mergeStep
        cases hl : alook d a with
        | some v => exact alook_aset_ne a i (v + f a) d ha
        | none => exact alook_aset_ne a i (f a) d ha
      rw [h1]
      by_cases hiL : i ∈ L
      · rw [if_pos hiL, if_pos (List.mem_cons_of_mem a hiL)]
      · rw [if_neg hiL, if_neg (by simp [ha, hiL])]

theorem bestOf_mem : ∀ (xs : List (Intent × ℚ)) (x : Intent × ℚ),
    bestOf x xs ∈ x :: xs := by
  intro xs
  induction xs with
  | nil => intro x; simp [bestOf]
  | cons y ys ih =>
    intro x
    by_cases hc : x.2 < y.2
    · have hstep : bestOf x (y :: ys) = bestOf y ys := by
        show bestOf (if x.2 < y.2 then y else x) ys = _
        rw [if_pos hc]
      rw [hstep]
      exact List.mem_cons_of_mem x (ih y)
    · have hstep : bestOf x (y :: ys) = bestOf x ys := by
        show bestOf (if x.2 < y.2 then y else x) ys = _
        rw [if_neg hc]
      rw [hstep]
      rcases List.mem_cons.mp (ih x) with h1 | h1
      · rw [h1]
        exact List.mem_cons_self x (y :: ys)
      · exact List.mem_cons_of_mem x (List.mem_cons_of_mem y h1)

theorem bestOf_ge : ∀ (xs : List (Intent × ℚ)) (x y : Intent × ℚ),
    y ∈ x :: xs → y.2 ≤ (bestOf x xs).2 := by
  intro xs
  induction xs with
  | nil =>
    intro x y hy
    simp only [List.mem_singleton] at hy
    simp [bestOf, hy]
  | cons z zs ih =>
    intro x y hy
    by_cases hc : x.2 < z.2
    · have hstep : bestOf x (z :: zs) = bestOf z zs := by
        show bestOf (if x.2 < z.2 then z else x) zs = _
        rw [if_pos hc]
      rw [hstep]
      rcases List.mem_cons.mp hy with hq | hy2
      · rw [hq]
        exact le_trans (le_of_lt hc) (ih z z (List.mem_cons_self _ _))
      · rcases List.mem_cons.mp hy2 with hq | hy3
        · rw [hq]
          exact ih z z (List.mem_cons_self _ _)
        · exact ih z y (List.mem_cons_of_mem _ hy3)
    · have hstep : bestOf x (z :: zs) = bestOf x zs := by
        show bestOf (if x.2 < z.2 then z else x) zs = _
        rw [if_neg hc]
      rw [hstep]
      rcases List.mem_cons.mp hy with hq | hy2
      · rw [hq]
        exact ih x x (List.mem_cons_self _ _)
      · rcases List.mem_cons.mp hy2 with hq | hy3
        · rw [hq]
          exact le_trans (le_of_not_lt hc) (ih x x (List.mem_cons_self _ _))
        · exact ih x y (List.mem_cons_of_mem _ hy3)

theorem mem_allIntents (i : Intent) : i ∈ allIntents := by
  cases i <;> simp [allIntents]

theorem intentsOrder_nodup : intentsOrder.Nodup := by decide

theorem mem_intentsOrder (i : Intent) : i ∈ intentsOrder := by
  cases i <;> simp [intentsOrder, allIntents]

/-- Claim C1: the classifier merges pattern and semantic scores by
summing per intent (a key in only one map keeps its value), returns the
first maximal merged item with confidence `min(score, 1.0)` exactly when
that confidence reaches the threshold, returns `('general_chat', 0.5)`
otherwise and on an empty merged map, and always yields a confidence in
`[0, 1]` and a label from the fixed intent set. -/
theorem intent_classifier_decision_rule (cfg : AppCfg)
    (sem : Option (Intent → ℚ)) (text : String)
    (hθ : 0 ≤ cfg.INTENT_THRESHOLD) :
    (∀ i, alook (mergedScores sem text) i
        = mergeSpec (alook (buildScores (lowerL text) intent_patterns) i)
            (semMap sem i))
    ∧ (0 ≤ (recognize_intent cfg sem text).2
        ∧ (recognize_intent cfg sem text).2 ≤ 1)
    ∧ (recognize_intent cfg sem text).1 ∈ allIntents
    ∧ (mergedScores sem text = [] →
        recognize_intent cfg sem text = (.general_chat, 1 / 2))
    ∧ (∀ x xs, mergedScores sem text = x :: xs →
        (bestOf x xs ∈ x :: xs ∧ ∀ y ∈ x :: xs, y.2 ≤ (bestOf x xs).2)
        ∧ (cfg.INTENT_THRESHOLD ≤ min (bestOf x xs).2 1 →
            recognize_intent cfg sem text = ((bestOf x xs).1, min (bestOf x xs).2 1))
        ∧ (min (bestOf x xs).2 1 < cfg.INTENT_THRESHOLD →
            recognize_intent cfg sem text = (.general_chat, 1 / 2))) := by
  have hmerge : ∀ i, alook (mergedScores sem text) i
      = mergeSpec (alook (buildScores (lowerL text) intent_patterns) i)
          (semMap sem i) := by
    intro i
    cases sem with
    | none => simp [mergedScores, semMap, mergeSpec_none_right]
    | some f =>
      show alook (intentsOrder.foldl (mergeStep f)
          (buildScores (lowerL text) intent_patterns)) i = _
      rw [alook_mergeFold f intentsOrder _ i intentsOrder_nodup,
          if_pos (mem_intentsOrder i)]
      rfl
  have hnil : mergedScores sem text = [] →
      recognize_intent cfg sem text = (.general_chat, 1 / 2) := by
    intro h
    simp only [recognize_intent, h]
  have hcons : ∀ x xs, mergedScores sem text = x :: xs →
      recognize_intent cfg sem text
        = if cfg.INTENT_THRESHOLD ≤ min (bestOf x xs).2 1 then
            ((bestOf x xs).1, min (bestOf x xs).2 1)
          else (.general_chat, 1 / 2) := by
    intro x xs h
    simp only [recognize_intent, h]
  refine ⟨hmerge, ?_, ?_, hnil, ?_⟩
  · cases hm : mergedScores sem text with
    | nil =>
      rw [hnil hm]
      norm_num
    | cons x xs =>
      rw [hcons x xs hm]
      by_cases hth : cfg.INTENT_THRESHOLD ≤ min (bestOf x xs).2 1
      · rw [if_pos hth]
        exact ⟨le_trans hθ hth, min_le_right _ _⟩
      · rw [if_neg hth]
        norm_num
  · cases hm : mergedScores sem text with
    | nil =>
      rw [hnil hm]
      exact mem_allIntents _
    | cons x xs =>
      rw [hcons x xs hm]
      by_cases hth : cfg.INTENT_THRESHOLD ≤ min (bestOf x xs).2 1
      · rw [if_pos hth]
        exact mem_allIntents _
      · rw [if_neg hth]
        exact mem_allIntents _
  · intro x xs hm
    refine ⟨⟨bestOf_mem xs x, fun y hy => bestOf_ge xs x y hy⟩, ?_, ?_⟩
    · intro hth
      rw [hcons x xs hm, if_pos hth]
    · intro hth
      rw [hcons x xs hm, if_neg (not_le.mpr hth)]

/-- Witness for `intent_classifier_decision_rule` on the default
configuration, no semantic capability, and the utterance `"hello"`. -/
theorem intent_classifier_decision_rule_witness :
    0 ≤ (recognize_intent defaultCfg none "hello").2
      ∧ (recognize_intent defaultCfg none "hello").2 ≤ 1
      ∧ (recognize_intent defaultCfg none "hello").1 ∈ allIntents := by
  have h := intent_classifier_decision_rule defaultCfg none "hello"
    (by norm_num [defaultCfg])
  exact ⟨h.2.1.1, h.2.1.2, h.2.2.1⟩

/-! ## Substring lemmas -/

theorem chPre_map (f : Char → Char) :
    ∀ (m s : List Char), chPre m s = true → chPre (m.map f) (s.map f) = true := by
  intro m
  induction m with
  | nil => intro s _; simp [chPre]
  | cons a as ih =>
    intro s h
    cases s with
    | nil => simp [chPre] at h
    | cons b bs =>
      simp only [chPre, Bool.and_eq_true, beq_iff_eq] at h
      simp only [List.map_cons, chPre, Bool.and_eq_true, beq_iff_eq]
      exact ⟨congrArg f h.1, ih bs h.2⟩

theorem chSub_map (f : Char → Char) (m : List Char) :
    ∀ s : List Char, chSub m s = true → chSub (m.map f) (s.map f) = true := by
  intro s
  induction s with
  | nil =>
    intro h
    simp only [chSub] at h ⊢
    exact chPre_map f m [] h
  | cons c r ih =>
    intro h
    simp only [chSub, Bool.or_eq_true] at h ⊢
    rcases h with h | h
    · exact Or.inl (chPre_map f m (c :: r) h)
    · exact Or.inr (ih h)

theorem toList_lowerS (s : String) : (lowerS s).toList = s.toList.map Char.toLower := rfl

theorem strContains_lower (hay needle : String)
    (hinv : needle.toList.map Char.toLower = needle.toList)
    (h : strContainsS hay needle = true) :
    strContainsS (lowerS hay) needle = true := by
  unfold strContainsS at h ⊢
  rw [toList_lowerS, ← hinv]
  exact chSub_map Char.toLower needle.toList hay.toList h

/-! ## Claim C7: the response validator -/

theorem inappropriate_phrases_lower_inv :
    ∀ b ∈ inappropriate_phrases, b.toList.map Char.toLower = b.toList := by
  decide

/-- Counterexample for claim C7 as stated: the candidate
`"YARA is my creation"` contains none of the identity keywords (the
keyword check is on the lowercased candidate, not the candidate itself),
yet the validator accepts it for a `personal_question` / `who are you`
turn. -/
theorem validator_identity_case_counterexample :
    is_valid_response defaultCfg "YARA is my creation" "who are you"
        .personal_question = true
      ∧ personal_keywords.all
          (fun k => !strContainsS "YARA is my creation" k) = true := by
  constructor
  · decide
  · decide

/-- Claim C7 (amended): with validation disabled every candidate is
accepted; with it enabled, candidates with trimmed length below the
minimum or above the maximum are rejected, candidates containing a
blacklisted fragment are rejected independently of intent, and — for a
`personal_question` with `"who are you"` in the utterance — candidates
whose lowercased text contains none of the identity keywords are
rejected. -/
theorem validator_rules (cfg : AppCfg) (response user_input : String)
    (intent : Intent) :
    (cfg.ENABLE_RESPONSE_VALIDATION = false →
      is_valid_response cfg response user_input intent = true)
    ∧ (cfg.ENABLE_RESPONSE_VALIDATION = true →
        (pyStripS response).length < cfg.MIN_RESPONSE_LENGTH →
        is_valid_response cfg response user_input intent = false)
    ∧ (cfg.ENABLE_RESPONSE_VALIDATION = true →
        cfg.MAX_RESPONSE_LENGTH < (pyStripS response).length →
        is_valid_response cfg response user_input intent = false)
    ∧ (∀ b, cfg.ENABLE_RESPONSE_VALIDATION = true →
        b ∈ inappropriate_phrases → strContainsS response b = true →
        is_valid_response cfg response user_input intent = false)
    ∧ (cfg.ENABLE_RESPONSE_VALIDATION = true →
        intent = .personal_question →
        strContainsS (lowerS user_input) "who are you" = true →
        (∀ k ∈ personal_keywords, strContainsS (lowerS response) k = false) →
        is_valid_response cfg response user_input intent = false) := by
  refine ⟨?_, ?_, ?_, ?_, ?_⟩
  · intro hdis
    unfold is_valid_response
    rw [if_pos hdis]
  · intro hen hmin
    unfold is_valid_response
    split_ifs <;> simp_all
  · intro hen hmax
    unfold is_valid_response
    split_ifs <;> simp_all
  · intro b hen hbmem hbcontains
    have hany : inappropriate_phrases.any
        (fun p => strContainsS (lowerS response) p) = true :=
      List.any_eq_true.mpr
        ⟨b, hbmem,
         strContains_lower response b (inappropriate_phrases_lower_inv b hbmem)
           hbcontains⟩
    unfold is_valid_response
    split_ifs <;> simp_all
  · intro hen hintent hwho hkeys
    have hcond : intent = Intent.personal_question
        ∧ strContainsS (lowerS user_input) "who are you" = true
        ∧ personal_keywords.all
            (fun k => !strContainsS (lowerS response) k) = true := by
      refine ⟨hintent, hwho, ?_⟩
      rw [List.all_eq_true]
      intro k hk
      simp [hkeys k hk]
    unfold is_valid_response
    split_ifs <;> simp_all

/-- Witness for `validator_rules`: the default configuration rejects a
two-character candidate. -/
theorem validator_rules_witness :
    is_valid_response defaultCfg "Hi" "hello" .greeting = false := by
  exact (validator_rules defaultCfg "Hi" "hello" .greeting).2.1 (by decide)
    (by decide)

/-! ## Memory pattern lemmas -/

theorem isPrefixOf_eq_chPre (m s : List Char) : m.isPrefixOf s = chPre m s := by
  induction m generalizing s with
  | nil => cases s <;> simp [List.isPrefixOf, chPre]
  | cons a as ih =>
    cases s with
    | nil => simp [List.isPrefixOf, chPre]
    | cons b bs => simp [List.isPrefixOf, chPre, ih]

theorem chPre_append (m s : List Char) : chPre m (m ++ s) = true := by
  induction m with
  | nil => simp [chPre]
  | cons a as ih => simp [chPre, ih]

theorem chSub_of_decomp (m a b : List Char) : chSub m (a ++ m ++ b) = true := by
  induction a with
  | nil =>
    cases hm : m ++ b with
    | nil =>
      have hm0 : m = [] := by
        cases m with
        | nil => rfl
        | cons x xs => simp at hm
      have hb0 : b = [] := by simpa [hm0] using hm
      simp [hm0, hb0, chSub, chPre]
    | cons c r =>
      show chSub m ([] ++ m ++ b) = true
      rw [List.nil_append, hm]
      unfold chSub
      rw [← hm, chPre_append]
      simp
  | cons c cs ih =>
    show chSub m ((c :: cs) ++ m ++ b) = true
    unfold chSub
    rw [List.cons_append, List.cons_append]
    simp only [Bool.or_eq_true]
    right
    exact ih

theorem chSub_iff (m s : List Char) :
    chSub m s = true ↔ ∃ a b, s = a ++ m ++ b := by
  constructor
  · intro h
    induction s with
    | nil =>
      simp only [chSub] at h
      cases m with
      | nil => exact ⟨[], [], rfl⟩
      | cons x xs => simp [chPre] at h
    | cons c r ih =>
      simp only [chSub, Bool.or_eq_true] at h
      rcases h with h | h
      · -- prefix at the head
        have : ∃ t, c :: r = m ++ t := by
          clear ih
          induction m generalizing c r with
          | nil => exact ⟨c :: r, rfl⟩
          | cons a as ihm =>
            simp only [chPre, Bool.and_eq_true, beq_iff_eq] at h
            cases r with
            | nil =>
              cases as with
              | nil => exact ⟨[], by simp [h.1]⟩
              | cons a2 as2 => simp [chPre] at h
            | cons c2 r2 =>
              obtain ⟨t, ht⟩ := ihm c2 r2 h.2
              exact ⟨t, by simp [h.1, ht]⟩
        obtain ⟨t, ht⟩ := this
        exact ⟨[], t, by simpa using ht⟩
      · obtain ⟨a, b, hab⟩ := ih h
        exact ⟨c :: a, b, by simp [hab]⟩
  · rintro ⟨a, b, rfl⟩
    exact chSub_of_decomp m a b

theorem chSub_right_of_append (m1 m2 s : List Char)
    (h : chSub (m1 ++ m2) s = true) : chSub m2 s = true := by
  obtain ⟨a, b, rfl⟩ := (chSub_iff _ _).mp h
  rw [chSub_iff]
  exact ⟨a ++ m1, b, by simp⟩

theorem matchHere_isSome_pre (p : MPat) (cs : List Char)
    (h : (matchHere p cs).isSome = true) :
    chPre p.pre.toList cs = true := by
  unfold matchHere at h
  rw [isPrefixOf_eq_chPre] at h
  by_cases h1 : chPre p.pre.toList cs = true
  · exact h1
  · rw [if_neg (by simpa using h1)] at h
    simp at h

theorem matchHere_groupless (p : MPat) (hg : p.grp = none) (hpost : p.post = "")
    (cs : List Char) (h : chPre p.pre.toList cs = true) :
    matchHere p cs = some (none, eatOptQ p.optq (cs.drop p.pre.length)) := by
  unfold matchHere
  rw [isPrefixOf_eq_chPre, if_pos h, hg, hpost]
  simp [List.isPrefixOf]

theorem searchPat_isSome_sub (p : MPat) :
    ∀ (cs : List Char), (searchPat p cs).isSome = true →
      chSub p.pre.toList cs = true := by
  intro cs
  induction cs with
  | nil =>
    intro h
    simp only [searchPat] at h
    cases hm : matchHere p [] with
    | some pr => simpa [chSub] using matchHere_isSome_pre p [] (by simp [hm])
    | none =>
      rw [hm] at h
      simp at h
  | cons c r ih =>
    intro h
    unfold searchPat at h
    unfold chSub
    cases hm : matchHere p (c :: r) with
    | some pr =>
      rw [matchHere_isSome_pre p (c :: r) (by simp [hm])]
      simp
    | none =>
      rw [hm] at h
      simp only [Bool.or_eq_true]
      exact Or.inr (ih h)

theorem searchPat_isSome_of_sub (p : MPat) (hg : p.grp = none) (hpost : p.post = "") :
    ∀ (cs : List Char), chSub p.pre.toList cs = true →
      (searchPat p cs).isSome = true := by
  intro cs
  induction cs with
  | nil =>
    intro h
    simp only [chSub] at h
    simp only [searchPat]
    rw [matchHere_groupless p hg hpost [] h]
    simp
  | cons c r ih =>
    intro h
    simp only [chSub, Bool.or_eq_true] at h
    unfold searchPat
    rcases h with h | h
    · rw [matchHere_groupless p hg hpost (c :: r) h]
      simp
    · cases hm : matchHere p (c :: r) with
      | some pr => simp
      | none => exact ih h

theorem matchHere_grp_some (p : MPat) (k : GKind) (hk : p.grp = some k)
    (cs : List Char) (pr : Option (List Char) × List Char)
    (h : matchHere p cs = some pr) : ∃ tk, pr.1 = some tk := by
  unfold matchHere at h
  rw [hk] at h
  by_cases h1 : p.pre.toList.isPrefixOf cs
  · rw [if_pos h1] at h
    simp only at h
    by_cases h2 : (cs.drop p.pre.length).takeWhile (gfn k) = []
    · rw [if_pos h2] at h
      simp at h
    · rw [if_neg h2] at h
      by_cases h3 : p.post.toList.isPrefixOf
          ((cs.drop p.pre.length).drop
            ((cs.drop p.pre.length).takeWhile (gfn k)).length)
      · rw [if_pos h3] at h
        cases h
        exact ⟨_, rfl⟩
      · rw [if_neg h3] at h
        simp at h
  · rw [if_neg h1] at h
    simp at h

theorem patMatch_grp_some (p : MPat) (k : GKind) (hk : p.grp = some k)
    (cs : List Char) (g : Option (List Char))
    (h : patMatch p cs = some g) : ∃ tk, g = some tk := by
  unfold patMatch at h
  by_cases ha : p.anchored
  · rw [if_pos ha] at h
    unfold fullMatch at h
    cases hm : matchHere p cs with
    | some pr =>
      obtain ⟨tk, htk⟩ := matchHere_grp_some p k hk cs pr hm
      obtain ⟨g1, rem⟩ := pr
      rw [hm] at h
      have h2 : (if rem = [] ∨ rem = [ '\n' ] then some g1 else none) = some g := h
      by_cases hrem : rem = [] ∨ rem = [ '\n' ]
      · rw [if_pos hrem] at h2
        rw [← Option.some.inj h2]
        exact ⟨tk, htk⟩
      · rw [if_neg hrem] at h2
        simp at h2
    | none =>
      rw [hm] at h
      simp at h
  · rw [if_neg ha] at h
    clear ha
    induction cs with
    | nil =>
      simp only [searchPat] at h
      cases hm : matchHere p [] with
      | some pr =>
        rw [hm] at h
        have h3 : some pr.1 = some g := h
        obtain ⟨tk, htk⟩ := matchHere_grp_some p k hk [] pr hm
        exact ⟨tk, by rw [← Option.some.inj h3, htk]⟩
      | none =>
        rw [hm] at h
        simp at h
    | cons c r ih =>
      unfold searchPat at h
      cases hm : matchHere p (c :: r) with
      | some pr =>
        rw [hm] at h
        have h3 : some pr.1 = some g := h
        obtain ⟨tk, htk⟩ := matchHere_grp_some p k hk (c :: r) pr hm
        exact ⟨tk, by rw [← Option.some.inj h3, htk]⟩
      | none =>
        rw [hm] at h
        exact ih h

theorem firstHit_eq_some (f : α → Option β) :
    ∀ (l : List α) (b : β), firstHit f l = some b → ∃ a ∈ l, f a = some b := by
  intro l
  induction l with
  | nil => intro b h; simp [firstHit] at h
  | cons hd tl ih =>
    intro b h
    unfold firstHit at h
    cases hf : f hd with
    | some c =>
      rw [hf] at h
      refine ⟨hd, List.mem_cons_self _ _, ?_⟩
      rw [hf]
      exact h
    | none =>
      rw [hf] at h
      obtain ⟨a, ha, hfa⟩ := ih b h
      exact ⟨a, List.mem_cons_of_mem _ ha, hfa⟩

theorem firstHit_isSome_of_mem (f : α → Option β) :
    ∀ (l : List α) (a : α), a ∈ l → (f a).isSome = true →
      (firstHit f l).isSome = true := by
  intro l
  induction l with
  | nil => intro a ha; simp at ha
  | cons hd tl ih =>
    intro a ha h
    unfold firstHit
    cases hf : f hd with
    | some b => simp
    | none =>
      rcases List.mem_cons.mp ha with hq | ha2
      · rw [hq, hf] at h
        simp at h
      · exact ih a ha2 h

/-! ## Claim C3: forget priority in `process_input` -/

theorem firstForgetMatch_none_group (low : List Char)
    (h : firstForgetMatch low = some none) :
    chSub ( "what i told you").toList low = true := by
  obtain ⟨p, hp, hpm⟩ := firstHit_eq_some _ forget_request_patterns none h
  fin_cases hp
  · obtain ⟨tk, htk⟩ := patMatch_grp_some _ .gw rfl low none hpm
    cases htk
  · have hpm2 : searchPat
        (⟨false, "forget what i told you", none, "", false⟩ : MPat) low
        = some none := hpm
    have hs : (searchPat
        (⟨false, "forget what i told you", none, "", false⟩ : MPat) low).isSome
        = true := by
      rw [hpm2]
      rfl
    have hsub := searchPat_isSome_sub _ low hs
    have hdecomp : ( "forget what i told you").toList
        = ( "forget ").toList ++ ( "what i told you").toList := by decide
    rw [show (⟨false, "forget what i told you", none, "", false⟩ : MPat).pre
        = "forget what i told you" from rfl] at hsub
    rw [hdecomp] at hsub
    exact chSub_right_of_append _ _ low hsub
  · obtain ⟨tk, htk⟩ := patMatch_grp_some _ .gw rfl low none hpm
    cases htk
  · obtain ⟨tk, htk⟩ := patMatch_grp_some _ .gw rfl low none hpm
    cases htk
  · obtain ⟨tk, htk⟩ := patMatch_grp_some _ .gw rfl low none hpm
    cases htk

theorem firstForgetMatch_isSome_of_clear (low : List Char)
    (h : chSub ( "forget what i told you").toList low = true) :
    (firstForgetMatch low).isSome = true := by
  apply firstHit_isSome_of_mem _ forget_request_patterns
    (⟨false, "forget what i told you", none, "", false⟩ : MPat)
    (by simp [forget_request_patterns])
  show (searchPat _ low).isSome = true
  exact searchPat_isSome_of_sub _ rfl rfl low h

theorem findActualKey_mem (memory : List (String × String)) (e a : String)
    (h : findActualKey memory e = some a) : a ∈ akeys memory := by
  obtain ⟨kv, hkv, hf⟩ := firstHit_eq_some _ memory a h
  by_cases hc : (strContainsS kv.1 e || strContainsS e kv.1) = true
  · rw [if_pos hc] at hf
    rw [← Option.some.inj hf]
    exact List.mem_map_of_mem _ hkv
  · rw [if_neg hc] at hf
    simp at hf

/-- Claim C3: `process_input` gives the forget group absolute priority —
any utterance matching a forget rule (in particular one also matching a
summary, store, or query rule) takes the forget branch with action
`'forget'`; and any utterance containing `"forget what i told you"`
clears the whole store and returns the clear confirmation with action
`'forget'`, regardless of other substrings. -/
theorem memory_forget_priority :
    (∀ (now : Nat) (m : SessionMemory) (s : String), MemWf m →
      (firstForgetMatch (lowerS s).toList).isSome = true →
      (anySummaryMatch (lowerS s).toList = true
        ∨ (firstStoreMatch (lowerS s).toList).isSome = true
        ∨ (firstQueryMatch (lowerS s).toList).isSome = true) →
      ∃ m2 r, process_input now m s = .ok (m2, some r, "forget"))
    ∧ (∀ (now : Nat) (m : SessionMemory) (s : String),
        strContainsS s "forget what i told you" = true →
        process_input now m s = .ok (m.clear now, some clearAllMsg, "forget")) := by
  constructor
  · intro now m s hwf hforget _
    obtain ⟨g, hg⟩ := Option.isSome_iff_exists.mp hforget
    simp only [process_input, hg]
    by_cases hchk : chSub ( "what i told you").toList (lowerS s).toList = true
    · rw [if_pos hchk]
      exact ⟨m.clear now, clearAllMsg, rfl⟩
    · rw [if_neg hchk]
      cases g with
      | none => exact absurd (firstForgetMatch_none_group _ hg) hchk
      | some tk =>
        cases hfk : findActualKey m.memory tk.asString with
        | some a =>
          have hmem : (alook m.memory a).isSome := by
            rw [alook_isSome_iff_mem]
            exact findActualKey_mem m.memory tk.asString a hfk
          simp only [hfk, remove_of_mem m a hwf hmem]
          exact ⟨_, _, rfl⟩
        | none =>
          simp only [hfk]
          exact ⟨m, _, rfl⟩
  · intro now m s hsub
    have hlow : chSub ( "forget what i told you").toList (lowerS s).toList
        = true := by
      have h1 := chSub_map Char.toLower ( "forget what i told you").toList
        s.toList hsub
      rw [show ( "forget what i told you").toList.map Char.toLower
          = ( "forget what i told you").toList from by decide] at h1
      exact h1
    have hwhat : chSub ( "what i told you").toList (lowerS s).toList = true := by
      have hdecomp : ( "forget what i told you").toList
          = ( "forget ").toList ++ ( "what i told you").toList := by decide
      rw [hdecomp] at hlow
      exact chSub_right_of_append _ _ _ hlow
    have hsome := firstForgetMatch_isSome_of_clear (lowerS s).toList hlow
    obtain ⟨g, hg⟩ := Option.isSome_iff_exists.mp hsome
    simp only [process_input, hg]
    rw [if_pos hwhat]

/-- Witness for `memory_forget_priority`: an utterance matching both a
forget rule and a summary rule, and a clear request on a nonempty store. -/
theorem memory_forget_priority_witness :
    (∃ m2 r, process_input 0 (SessionMemory.init 0)
        "tell me what do you remember and forget what i told you"
        = .ok (m2, some r, "forget"))
      ∧ process_input 7
          ((SessionMemory.init 0).store 1 "name" "alex" "user_input")
          "forget what i told you"
        = .ok (((SessionMemory.init 0).store 1 "name" "alex" "user_input").clear 7,
               some clearAllMsg, "forget") := by
  constructor
  · exact memory_forget_priority.1 0 (SessionMemory.init 0)
      "tell me what do you remember and forget what i told you"
      (by decide) (by decide) (Or.inl (by decide))
  · exact memory_forget_priority.2 7
      ((SessionMemory.init 0).store 1 "name" "alex" "user_input")
      "forget what i told you" (by decide)

deriving instance DecidableEq for Except

/-! ## Claim C4: name store/query round trip -/

/-- Counterexample for claim C4 as stated: storing via
`"my name is Alex"` stores the lowercased value, so the later query
response contains `"alex"` but not `"Alex"`. -/
theorem name_roundtrip_case_counterexample :
    process_input 0 (SessionMemory.init 0) "my name is Alex"
        = .ok (⟨[("name", "alex")], [("name", ⟨0, "user_input", 0⟩)], 0⟩,
               some "Nice to meet you, alex! I\x27ll remember that during this chat. 😊",
               "store")
      ∧ process_input 1
          (⟨[("name", "alex")], [("name", ⟨0, "user_input", 0⟩)], 0⟩ : SessionMemory)
          "what is my name?"
        = .ok (⟨[("name", "alex")], [("name", ⟨0, "user_input", 0⟩)], 0⟩,
               some "Your name is alex. 😊", "query")
      ∧ strContainsS "Your name is alex. 😊" "Alex" = false := by
  refine ⟨by decide, by decide, by decide⟩

/-- Claim C4 (amended): the round trip holds with the case-normalised
stored value — `"my name is Alex"` then `"what is my name?"` yields a
response containing `"alex"`; after `"forget my name"` the same query
yields the don\x27t-know-yet variant. -/
theorem name_roundtrip_lowercased :
    process_input 0 (SessionMemory.init 0) "my name is Alex"
        = .ok (⟨[("name", "alex")], [("name", ⟨0, "user_input", 0⟩)], 0⟩,
               some "Nice to meet you, alex! I\x27ll remember that during this chat. 😊",
               "store")
      ∧ process_input 1
          (⟨[("name", "alex")], [("name", ⟨0, "user_input", 0⟩)], 0⟩ : SessionMemory)
          "what is my name?"
        = .ok (⟨[("name", "alex")], [("name", ⟨0, "user_input", 0⟩)], 0⟩,
               some "Your name is alex. 😊", "query")
      ∧ strContainsS "Your name is alex. 😊" "alex" = true
      ∧ process_input 2
          (⟨[("name", "alex")], [("name", ⟨0, "user_input", 0⟩)], 0⟩ : SessionMemory)
          "forget my name"
        = .ok (⟨[], [], 0⟩,
               some "Alright, I\x27ll forget your name for now. 🧹", "forget")
      ∧ process_input 3 (⟨[], [], 0⟩ : SessionMemory) "what is my name?"
        = .ok (⟨[], [], 0⟩,
               some "I don\x27t know yet! What\x27s your name? 😊", "query") := by
  refine ⟨by decide, by decide, by decide, by decide, by decide⟩

/-! ## Claim C9: anchored store/query rules -/

/-- Counterexample for claim C9 as stated: `"bigalex is my name"` embeds
the store phrasing `"alex is my name"` inside surrounding text and
matches no forget or summary pattern, yet `process_input` stores
`name = "bigalex"` (the whole utterance itself fully matches
`^(\w+) is my name$`) instead of returning `(none, 'none')`. -/
theorem anchored_embedding_counterexample :
    "bigalex is my name" = "big" ++ "alex is my name"
      ∧ (fullMatch (⟨true, "", some .gw, " is my name", false⟩ : MPat)
          ( "alex is my name").toList).isSome = true
      ∧ firstForgetMatch (lowerS "bigalex is my name").toList = none
      ∧ anySummaryMatch (lowerS "bigalex is my name").toList = false
      ∧ process_input 0 (SessionMemory.init 0) "bigalex is my name"
        = .ok (⟨[("name", "bigalex")], [("name", ⟨0, "user_input", 0⟩)], 0⟩,
               some "Nice to meet you, bigalex! I\x27ll remember that during this chat. 😊",
               "store") := by
  refine ⟨by decide, by decide, by decide, by decide, by decide⟩

/-- Claim C9 (amended): the store and query rule tables are all `^…$`
anchored while the forget and summary tables are unanchored; for every
utterance that matches no forget or summary pattern and does not itself
fully match any store or query pattern (e.g. one embedding a store
phrasing in surrounding text, such as `"hello, my name is sam"`),
`process_input` returns `(none, 'none')` and leaves the memory
unchanged. -/
theorem anchored_store_query_rules :
    store_groups.all (fun kp => kp.2.all (·.anchored)) = true
    ∧ query_groups.all (fun kp => kp.2.all (·.anchored)) = true
    ∧ forget_request_patterns.all (fun p => !p.anchored) = true
    ∧ memory_summary_patterns.all (fun p => !p.anchored) = true
    ∧ (∀ (now : Nat) (m : SessionMemory) (s : String),
        firstForgetMatch (lowerS s).toList = none →
        anySummaryMatch (lowerS s).toList = false →
        firstStoreMatch (lowerS s).toList = none →
        firstQueryMatch (lowerS s).toList = none →
        process_input now m s = .ok (m, none, "none"))
    ∧ (∀ (now : Nat) (m : SessionMemory),
        process_input now m "hello, my name is sam" = .ok (m, none, "none")) := by
  have hgen : ∀ (now : Nat) (m : SessionMemory) (s : String),
      firstForgetMatch (lowerS s).toList = none →
      anySummaryMatch (lowerS s).toList = false →
      firstStoreMatch (lowerS s).toList = none →
      firstQueryMatch (lowerS s).toList = none →
      process_input now m s = .ok (m, none, "none") := by
    intro now m s h1 h2 h3 h4
    have h2d : anySummaryMatch (lowerS s).data = false := h2
    simp only [process_input, h1, h3, h4]
    rw [if_neg (by simp [h2d])]
  refine ⟨by decide, by decide, by decide, by decide, hgen, ?_⟩
  intro now m
  exact hgen now m "hello, my name is sam" (by decide) (by decide) (by decide)
    (by decide)

/-- Witness for `anchored_store_query_rules` at a concrete state. -/
theorem anchored_store_query_rules_witness :
    process_input 3 (SessionMemory.init 0) "hello, my name is sam"
      = .ok (SessionMemory.init 0, none, "none") :=
  anchored_store_query_rules.2.2.2.2.1 3 (SessionMemory.init 0)
    "hello, my name is sam" (by decide) (by decide) (by decide) (by decide)

/-! ## Claim C6: the orchestrator never raises -/

theorem process_input_ok (now : Nat) (m : SessionMemory) (s : String)
    (hwf : MemWf m) : ∃ t, process_input now m s = .ok t := by
  cases hg : firstForgetMatch (lowerS s).toList with
  | some g =>
    simp only [process_input, hg]
    by_cases hchk : chSub ( "what i told you").toList (lowerS s).toList = true
    · rw [if_pos hchk]
      exact ⟨_, rfl⟩
    · rw [if_neg hchk]
      cases g with
      | none => exact absurd (firstForgetMatch_none_group _ hg) hchk
      | some tk =>
        cases hfk : findActualKey m.memory tk.asString with
        | some a =>
          have hmem : (alook m.memory a).isSome := by
            rw [alook_isSome_iff_mem]
            exact findActualKey_mem _ _ _ hfk
          simp only [hfk, remove_of_mem m a hwf hmem]
          exact ⟨_, rfl⟩
        | none =>
          simp only [hfk]
          exact ⟨_, rfl⟩
  | none =>
    simp only [process_input, hg]
    by_cases hsum : anySummaryMatch (lowerS s).toList = true
    · rw [if_pos hsum]
      exact ⟨_, rfl⟩
    · rw [if_neg hsum]
      cases hst : firstStoreMatch (lowerS s).toList with
      | some kv =>
        obtain ⟨k, v⟩ := kv
        simp only [hst]
        exact ⟨_, rfl⟩
      | none =>
        simp only [hst]
        cases hq : firstQueryMatch (lowerS s).toList with
        | some k =>
          simp only [hq]
          cases hr : m.retrieve k with
          | some v =>
            simp only [hr]
            by_cases hv : v ≠ ""
            · rw [if_pos hv]
              exact ⟨_, rfl⟩
            · rw [if_neg hv]
              exact ⟨_, rfl⟩
          | none =>
            simp only [hr]
            exact ⟨_, rfl⟩
        | none =>
          simp only [hq]
          exact ⟨_, rfl⟩

theorem force_fallback_eq (caps : Caps) (i : Intent) (s r : String)
    (h : force_fallback_for_intent caps i s = some r) :
    r = get_fallback_response i s := by
  unfold force_fallback_for_intent at h
  split_ifs at h <;> simp_all

theorem respond_after_memory_fallback (cfg : AppCfg) (caps : Caps)
    (ctx : Option String) (m2 : SessionMemory) (s : String)
    (hdb : (if caps.db_connected = true
              ∧ (recognize_intent cfg caps.sem s).1 ∈ dbIntents
            then handle_database_query caps (recognize_intent cfg caps.sem s).1 s
            else none) = none)
    (hgen : raw_generation caps ctx m2 s = none) :
    respond_after_memory cfg caps ctx m2 s
      = get_fallback_response (recognize_intent cfg caps.sem s).1 s := by
  unfold respond_after_memory
  simp only [hdb]
  by_cases hconf : (recognize_intent cfg caps.sem s).2 < cfg.INTENT_THRESHOLD
  · rw [if_pos hconf]
  · rw [if_neg hconf]
    cases hf : force_fallback_for_intent caps (recognize_intent cfg caps.sem s).1 s with
    | some r =>
      simp only [hf]
      exact (force_fallback_eq caps _ s r hf).symm ▸ rfl
    | none =>
      simp only [hf]
      unfold generation_step
      rw [hgen]

/-- Capability state with no database, no embedding model, and no
generation pipeline. -/
def capsNone : Caps :=
  ⟨false, fun _ => .ok none, .ok none, .ok none, none, none⟩

/-- Claim C6: a `respond` turn never surfaces an exception from any
well-formed state; an absent embedding capability makes classification
pattern-only; and an absent or failing generation capability (when the
memory and database branches produce nothing) ends in the static
fallback for the classified intent, for every capability state. -/
theorem respond_never_fails :
    (∀ (cfg : AppCfg) (caps : Caps) (ctx : Option String) (now : Nat)
        (m : SessionMemory) (s : String), MemWf m →
      ∃ out, generate_response cfg caps ctx now m s = .ok out)
    ∧ (∀ (cfg : AppCfg) (text : String),
        recognize_intent cfg none text = patternOnlyClassify cfg text)
    ∧ (∀ (cfg : AppCfg) (caps : Caps) (ctx : Option String) (now : Nat)
        (m m2 : SessionMemory) (a s : String),
        process_input now m s = .ok (m2, none, a) →
        raw_generation caps ctx m2 s = none →
        ¬(caps.db_connected = true
            ∧ (recognize_intent cfg caps.sem s).1 ∈ dbIntents
            ∧ (handle_database_query caps
                (recognize_intent cfg caps.sem s).1 s).isSome = true) →
        generate_response cfg caps ctx now m s
          = .ok (m2, get_fallback_response (recognize_intent cfg caps.sem s).1 s)) := by
  refine ⟨?_, ?_, ?_⟩
  · intro cfg caps ctx now m s hwf
    obtain ⟨t, hp⟩ := process_input_ok now m s hwf
    obtain ⟨m2, ro, a⟩ := t
    cases ro with
    | some r =>
      simp only [generate_response, hp]
      exact ⟨_, rfl⟩
    | none =>
      simp only [generate_response, hp]
      exact ⟨_, rfl⟩
  · intro cfg text
    rfl
  · intro cfg caps ctx now m m2 a s hproc hgen hnot
    have hdb : (if caps.db_connected = true
          ∧ (recognize_intent cfg caps.sem s).1 ∈ dbIntents
        then handle_database_query caps (recognize_intent cfg caps.sem s).1 s
        else none) = none := by
      by_cases hcond : caps.db_connected = true
          ∧ (recognize_intent cfg caps.sem s).1 ∈ dbIntents
      · rw [if_pos hcond]
        cases hdq : handle_database_query caps
            (recognize_intent cfg caps.sem s).1 s with
        | some r => exact absurd ⟨hcond.1, hcond.2, by simp [hdq]⟩ hnot
        | none => rfl
      · rw [if_neg hcond]
    simp only [generate_response, hproc]
    rw [respond_after_memory_fallback cfg caps ctx m2 s hdb hgen]

/-- Witness for `respond_never_fails` with every capability absent. -/
theorem respond_never_fails_witness :
    (∃ out, generate_response defaultCfg capsNone none 0
        (SessionMemory.init 0) "hello" = .ok out)
      ∧ recognize_intent defaultCfg none "hello"
          = patternOnlyClassify defaultCfg "hello"
      ∧ generate_response defaultCfg capsNone none 0
          (SessionMemory.init 0) "hello"
        = .ok (SessionMemory.init 0,
               get_fallback_response
                 (recognize_intent defaultCfg capsNone.sem "hello").1 "hello") := by
  refine ⟨?_, ?_, ?_⟩
  · exact respond_never_fails.1 defaultCfg capsNone none 0 (SessionMemory.init 0)
      "hello" (by decide)
  · exact respond_never_fails.2.1 defaultCfg "hello"
  · exact respond_never_fails.2.2 defaultCfg capsNone none 0
      (SessionMemory.init 0) (SessionMemory.init 0) "none" "hello"
      (by decide) rfl (by intro h; exact absurd h.1 (by decide))

/-! ## Claim C2: database branch ordering in the orchestrator -/

/-- Example semantic capability favouring `customer_query`. -/
def semCust : Intent → ℚ :=
  fun i => if i = .customer_query then 7 / 10 else 0

/-- Capability state with a connected database holding one customer, the
semantic capability `semCust`, and no generator. -/
def capsCust : Caps :=
  ⟨true, fun _ => .ok none, .ok (some [()]), .ok none, some semCust, none⟩

theorem recognize_forget_my_customer :
    recognize_intent defaultCfg (some semCust) "forget my customer"
      = (.customer_query, 1) := by
  have hs : scoreTotals (lowerL "forget my customer") intent_patterns
      = [(.customer_query, 1), (.memory_manage, 1)] := by decide
  have hm : mergedScores (some semCust) "forget my customer"
      = [(.customer_query, 1), (.memory_manage, 3 / 10), (.revenue_query, 0),
         (.product_query, 0), (.greeting, 0), (.personal_question, 0),
         (.gratitude, 0), (.farewell, 0), (.memory_query, 0),
         (.memory_store, 0), (.general_chat, 0)] := by
    unfold mergedScores
    rw [buildScores_eq_scoreTotals, hs]
    simp [intentsOrder, allIntents, mergeStep, alook, aset, semCust]
    norm_num
  unfold recognize_intent
  rw [hm]
  norm_num [bestOf, defaultCfg]

theorem recognize_how_many_customers :
    recognize_intent defaultCfg (some semCust) "how many customers do we have"
      = (.customer_query, 1) := by
  have hs : scoreTotals (lowerL "how many customers do we have") intent_patterns
      = [(.customer_query, 2)] := by decide
  have hm : mergedScores (some semCust) "how many customers do we have"
      = [(.customer_query, 13 / 10), (.revenue_query, 0),
         (.product_query, 0), (.greeting, 0), (.personal_question, 0),
         (.gratitude, 0), (.farewell, 0), (.memory_query, 0),
         (.memory_store, 0), (.memory_manage, 0), (.general_chat, 0)] := by
    unfold mergedScores
    rw [buildScores_eq_scoreTotals, hs]
    simp [intentsOrder, allIntents, mergeStep, alook, aset, semCust]
    norm_num
  unfold recognize_intent
  rw [hm]
  norm_num [bestOf, defaultCfg]

/-- Counterexample for claim C2 as stated: on `"forget my customer"`,
`dbAvailable` is true, the classifier (a pure function of the utterance)
returns `customer_query`, and the backing store holds a non-empty
customer list, yet the returned text is the memory engine's forget
response — the memory branch precedes the database branch. -/
theorem orchestrator_memory_precedes_db_counterexample :
    recognize_intent defaultCfg capsCust.sem "forget my customer"
        = (.customer_query, 1)
      ∧ capsCust.db_connected = true
      ∧ handle_database_query capsCust .customer_query "forget my customer"
          = some (format_customer_response [()])
      ∧ generate_response defaultCfg capsCust none 0 (SessionMemory.init 0)
          "forget my customer"
        = .ok (SessionMemory.init 0,
               "I don\x27t have your customer stored, so there\x27s nothing to forget. 🤷‍♀️")
      ∧ ( "I don\x27t have your customer stored, so there\x27s nothing to forget. 🤷‍♀️")
          ≠ format_customer_response [()] := by
  refine ⟨recognize_forget_my_customer, rfl, rfl, ?_, by decide⟩
  have hp : process_input 0 (SessionMemory.init 0) "forget my customer"
      = .ok (SessionMemory.init 0,
             some "I don\x27t have your customer stored, so there\x27s nothing to forget. 🤷‍♀️",
             "forget") := by decide
  simp only [generate_response, hp]

/-- Claim C2 (amended): provided the memory rule engine produces no
response for the utterance (the memory branch precedes everything), the
database branch precedes the low-confidence check — a classified
database intent with a non-empty backing-store result returns the
templated database response for any confidence; and when confidence is
below the threshold and the database branch did not return, the static
fallback for the intent is returned for every generator state (so
generation is never attempted). -/
theorem orchestrator_db_before_low_confidence :
    (∀ (cfg : AppCfg) (caps : Caps) (ctx : Option String) (now : Nat)
        (m m2 : SessionMemory) (a s : String) (i : Intent) (c : ℚ) (r : String),
        process_input now m s = .ok (m2, none, a) →
        caps.db_connected = true →
        recognize_intent cfg caps.sem s = (i, c) →
        i ∈ dbIntents →
        handle_database_query caps i s = some r →
        generate_response cfg caps ctx now m s = .ok (m2, r))
    ∧ (∀ (caps : Caps) (s : String) (l : List CustomerRow),
        caps.customerResult = .ok (some l) → l ≠ [] →
        handle_database_query caps .customer_query s
          = some (format_customer_response l))
    ∧ (∀ (cfg : AppCfg) (caps : Caps) (ctx : Option String) (now : Nat)
        (m m2 : SessionMemory) (a s : String),
        process_input now m s = .ok (m2, none, a) →
        (recognize_intent cfg caps.sem s).2 < cfg.INTENT_THRESHOLD →
        ¬(caps.db_connected = true
            ∧ (recognize_intent cfg caps.sem s).1 ∈ dbIntents
            ∧ (handle_database_query caps
                (recognize_intent cfg caps.sem s).1 s).isSome = true) →
        generate_response cfg caps ctx now m s
          = .ok (m2, get_fallback_response (recognize_intent cfg caps.sem s).1 s)) := by
  refine ⟨?_, ?_, ?_⟩
  · intro cfg caps ctx now m m2 a s i c r hproc hdbc hrec hmem hdq
    simp only [generate_response, hproc]
    unfold respond_after_memory
    simp only [hrec]
    rw [if_pos (⟨hdbc, hmem⟩ : caps.db_connected = true ∧ (i, c).1 ∈ dbIntents)]
    have hdq2 : handle_database_query caps (i, c).1 s = some r := hdq
    simp only [hdq2]
  · intro caps s l hcust hne
    unfold handle_database_query
    rw [hcust]
    simp [hne]
  · intro cfg caps ctx now m m2 a s hproc hconf hnot
    have hdb : (if caps.db_connected = true
          ∧ (recognize_intent cfg caps.sem s).1 ∈ dbIntents
        then handle_database_query caps (recognize_intent cfg caps.sem s).1 s
        else none) = none := by
      by_cases hcond : caps.db_connected = true
          ∧ (recognize_intent cfg caps.sem s).1 ∈ dbIntents
      · rw [if_pos hcond]
        cases hdq : handle_database_query caps
            (recognize_intent cfg caps.sem s).1 s with
        | some r => exact absurd ⟨hcond.1, hcond.2, by simp [hdq]⟩ hnot
        | none => rfl
      · rw [if_neg hcond]
    simp only [generate_response, hproc]
    unfold respond_after_memory
    simp only [hdb]
    rw [if_pos hconf]

/-- Witness for `orchestrator_db_before_low_confidence`: with a
connected one-customer database the utterance
`"how many customers do we have"` returns the templated customer
response. -/
theorem orchestrator_db_before_low_confidence_witness :
    generate_response defaultCfg capsCust none 0 (SessionMemory.init 0)
        "how many customers do we have"
      = .ok (SessionMemory.init 0, format_customer_response [()]) := by
  exact orchestrator_db_before_low_confidence.1 defaultCfg capsCust none 0
    (SessionMemory.init 0) (SessionMemory.init 0) "none"
    "how many customers do we have" .customer_query 1
    (format_customer_response [()]) (by decide) rfl
    recognize_how_many_customers (by decide) rfl
